import Mathlib

/-!
Shallow embedding of the mining-proxy core (the proxy-core TypeScript
package and the metrics collector): the Stratum line parser
(stratum-parser.ts, `StratumParser.write`), the per-connection relay
(connection.ts, `ProxyConnection`), server admission (server.ts,
`ProxyServer`), and the metrics collector (`MetricsCollector`).

Modelling conventions:
- bytes are modelled as characters: the traffic of interest is ASCII,
  where one byte is one UTF-16 code unit and `Buffer.toString('utf-8')`
  is the identity on each chunk;
- JavaScript numbers are modelled as integers (no claim depends on
  float semantics); timestamps are integers (milliseconds);
- `JSON.parse` is a JavaScript builtin with no source in the repository;
  it is modelled as an abstract function `parse : List Char → Option JSValue`
  (`none` models a thrown SyntaxError) that theorems quantify over.
-/

/-- Model of a JavaScript value as produced by `JSON.parse`. -/
inductive JSValue where
  | null : JSValue
  | bool : Bool → JSValue
  | num : Int → JSValue
  | str : String → JSValue
  | arr : List JSValue → JSValue
  | obj : List (String × JSValue) → JSValue
deriving Repr

/-- JavaScript truthiness of a value. -/
def jsTruthy : JSValue → Bool
  | .null => false
  | .bool b => b
  | .num n => n != 0
  | .str s => s != ""
  | .arr _ => true
  | .obj _ => true

/-- JavaScript `typeof` of a value (`typeof null` is "object", as is
`typeof` of any array or plain object). -/
def jsTypeof : JSValue → String
  | .null => "object"
  | .bool _ => "boolean"
  | .num _ => "number"
  | .str _ => "string"
  | .arr _ => "object"
  | .obj _ => "object"

/-- Property read `m[k]`: `none` models `undefined` (key absent or the
receiver not a plain object). `JSON.parse` keeps the last duplicate key,
hence the reversed search. -/
def jsGet : JSValue → String → Option JSValue
  | .obj kvs, k => (kvs.reverse.find? (fun kv => kv.1 == k)).map (fun kv => kv.2)
  | _, _ => none

/-- The JavaScript `k in m` test (for the keys used by the code, which
are never array indices). -/
def jsIn (m : JSValue) (k : String) : Bool := (jsGet m k).isSome

mutual

/-- JavaScript ToString of a value, as used by template literals. -/
def jsValToString : JSValue → String
  | .null => "null"
  | .bool b => if b then "true" else "false"
  | .num n => toString n
  | .str s => s
  | .arr xs => jsArrJoin xs
  | .obj _ => "[object Object]"

/-- `Array.prototype.toString`: elements joined by commas, with `null`
rendered as the empty string. -/
def jsArrJoin : List JSValue → String
  | [] => ""
  | [JSValue.null] => ""
  | [v] => jsValToString v
  | JSValue.null :: rest => "," ++ jsArrJoin rest
  | v :: rest => jsValToString v ++ "," ++ jsArrJoin rest

end

/-- Template-literal conversion of a property read (`undefined` when the
key was absent). -/
def jsOptToString : Option JSValue → String
  | none => "undefined"
  | some v => jsValToString v

/-! ## StratumParser (stratum-parser.ts, second snapshot, lines 83-150)

`write(chunk)` appends the chunk to a text accumulator, splits on
line-feed, keeps the trailing piece as the new accumulator, parses each
complete line as JSON (surfacing objects through `handleMessage`), and
resets the accumulator when its length exceeds 65536. -/

/-- JavaScript `String.prototype.split('\n')`: the result is always a
nonempty list of the pieces between line-feeds. -/
def splitNL : List Char → List (List Char)
  | [] => [[]]
  | c :: rest =>
    if c = '\n' then [] :: splitNL rest
    else
      match splitNL rest with
      | [] => [[c]]
      | l :: ls => (c :: l) :: ls

/-- The characters removed by JavaScript `String.prototype.trim`
(restricted to the ASCII range of the model). -/
def isJsSpace (c : Char) : Bool :=
  c = ' ' || c = '\t' || c = '\n' || c = '\r' || c = '\x0b' || c = '\x0c'

/-- JavaScript `String.prototype.trim` on the character-list model. -/
def trimChars (l : List Char) : List Char :=
  ((l.dropWhile isJsSpace).reverse.dropWhile isJsSpace).reverse

/-- Mutable state of one `StratumParser`: the text accumulator and the
once-only non-JSON warning flag. -/
structure ParserState where
  buffer : List Char
  nonJsonWarned : Bool
deriving Repr

/-- A freshly constructed `StratumParser`. -/
def initParser : ParserState := ⟨[], false⟩

/-- `StratumParser.handleMessage`: the parsed value is surfaced to the
`onMessage` callback exactly when `obj && typeof obj === 'object'`. -/
def handleMessage (v : JSValue) : List JSValue :=
  if jsTruthy v && (jsTypeof v == "object") then [v] else []

/-- One iteration of the line loop in `StratumParser.write`: skip blank
lines; on parse success surface via `handleMessage` (warning flag
untouched); on parse failure set the once-only warning flag. -/
def processLine (parse : List Char → Option JSValue) (acc : Bool × List JSValue)
    (line : List Char) : Bool × List JSValue :=
  let t := trimChars line
  if t.isEmpty then acc
  else
    match parse t with
    | some v => (acc.1, acc.2 ++ handleMessage v)
    | none => (true, acc.2)

/-- `StratumParser.write(chunk)`: returns the successor state and the
ordered list of messages surfaced to `onMessage`. The outer try/catch of
the source can only fire on a `toString` failure, which cannot occur in
the character-list model. -/
def writeChunk (parse : List Char → Option JSValue) (s : ParserState)
    (chunk : List Char) : ParserState × List JSValue :=
  let buf := s.buffer ++ chunk
  let pieces := splitNL buf
  let rest := pieces.getLastD []
  let folded := pieces.dropLast.foldl (processLine parse) (s.nonJsonWarned, [])
  let buf2 := if rest.length > 65536 then [] else rest
  (⟨buf2, folded.1⟩, folded.2)

/-- Feeding a list of chunks to the parser in order, collecting all
surfaced messages in order. -/
def writeAll (parse : List Char → Option JSValue) (s : ParserState) :
    List (List Char) → ParserState × List JSValue
  | [] => (s, [])
  | c :: cs =>
    let r1 := writeChunk parse s c
    let r2 := writeAll parse r1.1 cs
    (r2.1, r1.2 ++ r2.2)

/-- The messages a single complete line contributes. -/
def lineMsgs (parse : List Char → Option JSValue) (line : List Char) : List JSValue :=
  let t := trimChars line
  if t.isEmpty then []
  else
    match parse t with
    | some v => handleMessage v
    | none => []

theorem splitNL_ne_nil (l : List Char) : splitNL l ≠ [] := by
  cases l with
  | nil => simp [splitNL]
  | cons c rest =>
    simp only [splitNL]
    split
    · simp
    · split <;> simp

/-- The complete lines extracted from an input: all split pieces except
the trailing one. -/
def completeLines (x : List Char) : List (List Char) := (splitNL x).dropLast

/-- The trailing piece after the last line-feed of an input (the whole
input when it has no line-feed). -/
def lastPiece (x : List Char) : List Char := (splitNL x).getLastD []

theorem getLastD_cons_of_ne_nil {α : Type} (a d : α) {l : List α} (h : l ≠ []) :
    (a :: l).getLastD d = l.getLastD d := by
  cases l with
  | nil => exact absurd rfl h
  | cons b t => rfl

theorem dropLast_cons_of_ne_nil' {α : Type} (a : α) {l : List α} (h : l ≠ []) :
    (a :: l).dropLast = a :: l.dropLast := by
  cases l with
  | nil => exact absurd rfl h
  | cons b t => rfl

theorem splitNL_cons (c : Char) (rest : List Char) :
    splitNL (c :: rest) =
      if c = '\n' then [] :: splitNL rest
      else
        match splitNL rest with
        | [] => [[c]]
        | l :: ls => (c :: l) :: ls := rfl

theorem splitNL_exists_cons (x : List Char) : ∃ l ls, splitNL x = l :: ls := by
  cases h : splitNL x with
  | nil => exact absurd h (splitNL_ne_nil x)
  | cons a b => exact ⟨a, b, rfl⟩

theorem splitNL_no_newline {x : List Char} (h : '\n' ∉ x) : splitNL x = [x] := by
  induction x with
  | nil => rfl
  | cons c rest ih =>
    have hc : ¬(c = '\n') := by
      intro e; subst e; exact h (List.mem_cons_self _ _)
    have hr : '\n' ∉ rest := fun m => h (List.mem_cons_of_mem _ m)
    rw [splitNL_cons, if_neg hc, ih hr]

/-- Prepending newline-free text extends the first piece of the split. -/
theorem splitNL_prepend {x : List Char} (y : List Char) (h : '\n' ∉ x) :
    splitNL (x ++ y) = (x ++ (splitNL y).headD []) :: (splitNL y).tail := by
  induction x with
  | nil =>
    obtain ⟨l, ls, hls⟩ := splitNL_exists_cons y
    simp [hls]
  | cons c rest ih =>
    have hc : ¬(c = '\n') := by
      intro e; subst e; exact h (List.mem_cons_self _ _)
    have hr : '\n' ∉ rest := fun m => h (List.mem_cons_of_mem _ m)
    rw [List.cons_append, splitNL_cons, if_neg hc, ih hr]
    rfl

theorem splitNL_append (x y : List Char) :
    splitNL (x ++ y) = (splitNL x).dropLast ++ splitNL ((splitNL x).getLastD [] ++ y) := by
  induction x with
  | nil => simp [splitNL]
  | cons c rest ih =>
    obtain ⟨l, ls, hls⟩ := splitNL_exists_cons rest
    by_cases hc : c = '\n'
    · subst hc
      rw [List.cons_append, splitNL_cons, if_pos rfl, splitNL_cons, if_pos rfl, ih, hls,
        dropLast_cons_of_ne_nil' _ (List.cons_ne_nil l ls),
        getLastD_cons_of_ne_nil _ _ (List.cons_ne_nil l ls), List.cons_append]
    · rw [List.cons_append, splitNL_cons, if_neg hc, splitNL_cons, if_neg hc, ih, hls]
      cases ls with
      | nil =>
        have h1 : ([l] : List (List Char)).getLastD [] = l := rfl
        have h2 : ([c :: l] : List (List Char)).getLastD [] = c :: l := rfl
        rw [h1, h2, List.dropLast_single, List.dropLast_single, List.nil_append,
          List.nil_append, List.cons_append, splitNL_cons, if_neg hc]
      | cons l2 ls2 =>
        rw [dropLast_cons_of_ne_nil' _ (List.cons_ne_nil l2 ls2),
          getLastD_cons_of_ne_nil _ _ (List.cons_ne_nil l2 ls2),
          dropLast_cons_of_ne_nil' _ (List.cons_ne_nil l2 ls2),
          getLastD_cons_of_ne_nil _ _ (List.cons_ne_nil l2 ls2)]
        simp

theorem dropLast_append_of_ne_nil' {α : Type} (l₁ : List α) {l₂ : List α} (h : l₂ ≠ []) :
    (l₁ ++ l₂).dropLast = l₁ ++ l₂.dropLast := by
  induction l₁ with
  | nil => rfl
  | cons a t ih =>
    rw [List.cons_append,
      dropLast_cons_of_ne_nil' a (List.append_ne_nil_of_right_ne_nil t h), ih,
      List.cons_append]

theorem getLastD_append_of_ne_nil' {α : Type} (l₁ : List α) {l₂ : List α} (h : l₂ ≠ [])
    (d : α) : (l₁ ++ l₂).getLastD d = l₂.getLastD d := by
  induction l₁ with
  | nil => rfl
  | cons a t ih =>
    rw [List.cons_append,
      getLastD_cons_of_ne_nil a d (List.append_ne_nil_of_right_ne_nil t h), ih]

theorem completeLines_append (x y : List Char) :
    completeLines (x ++ y) = completeLines x ++ completeLines (lastPiece x ++ y) := by
  unfold completeLines lastPiece
  rw [splitNL_append, dropLast_append_of_ne_nil' _ (splitNL_ne_nil _)]

theorem lastPiece_append (x y : List Char) :
    lastPiece (x ++ y) = lastPiece (lastPiece x ++ y) := by
  unfold lastPiece
  rw [splitNL_append, getLastD_append_of_ne_nil' _ (splitNL_ne_nil _)]

theorem completeLines_no_newline {x : List Char} (h : '\n' ∉ x) : completeLines x = [] := by
  unfold completeLines
  rw [splitNL_no_newline h]
  rfl

theorem lastPiece_no_newline {x : List Char} (h : '\n' ∉ x) : lastPiece x = x := by
  unfold lastPiece
  rw [splitNL_no_newline h]
  rfl

theorem lastPiece_no_mem_newline (x : List Char) : '\n' ∉ lastPiece x := by
  induction x with
  | nil => simp [lastPiece, splitNL]
  | cons c rest ih =>
    obtain ⟨l, ls, hls⟩ := splitNL_exists_cons rest
    by_cases hc : c = '\n'
    · subst hc
      unfold lastPiece at ih ⊢
      rw [splitNL_cons, if_pos rfl, getLastD_cons_of_ne_nil _ _ (splitNL_ne_nil rest)]
      exact ih
    · unfold lastPiece at ih ⊢
      rw [splitNL_cons, if_neg hc, hls]
      rw [hls] at ih
      cases ls with
      | nil =>
        have hg : ([c :: l] : List (List Char)).getLastD [] = c :: l := rfl
        have hl : ([l] : List (List Char)).getLastD [] = l := rfl
        rw [hg]
        rw [hl] at ih
        intro hm
        rcases List.mem_cons.mp hm with h1 | h1
        · exact hc h1.symm
        · exact ih h1
      | cons l2 ls2 =>
        rw [getLastD_cons_of_ne_nil _ _ (List.cons_ne_nil l2 ls2)]
        rw [getLastD_cons_of_ne_nil _ _ (List.cons_ne_nil l2 ls2)] at ih
        exact ih

theorem completeLines_ne_nil_of_mem {z : List Char} (h : '\n' ∈ z) :
    completeLines z ≠ [] := by
  induction z with
  | nil => cases h
  | cons c rest ih =>
    obtain ⟨l, ls, hls⟩ := splitNL_exists_cons rest
    by_cases hc : c = '\n'
    · subst hc
      unfold completeLines
      rw [splitNL_cons, if_pos rfl, hls,
        dropLast_cons_of_ne_nil' _ (List.cons_ne_nil l ls)]
      simp
    · have hr : '\n' ∈ rest := by
        rcases List.mem_cons.mp h with h1 | h1
        · exact absurd h1.symm hc
        · exact h1
      have ihr := ih hr
      unfold completeLines at ihr ⊢
      rw [hls] at ihr
      rw [splitNL_cons, if_neg hc, hls]
      cases ls with
      | nil => simp at ihr
      | cons l2 ls2 =>
        rw [dropLast_cons_of_ne_nil' _ (List.cons_ne_nil l2 ls2)]
        simp

/-- When newline-free text is followed by text containing a newline, the
first complete line of the concatenation starts with that text. -/
theorem exists_line_with_prefix {x z : List Char} (hx : '\n' ∉ x) (hz : '\n' ∈ z) :
    ∃ w, (x ++ w) ∈ completeLines (x ++ z) := by
  obtain ⟨hd, tl, hsz⟩ := splitNL_exists_cons z
  have htl : tl ≠ [] := by
    intro e
    subst e
    have := completeLines_ne_nil_of_mem hz
    unfold completeLines at this
    rw [hsz] at this
    simp at this
  refine ⟨hd, ?_⟩
  unfold completeLines
  rw [splitNL_prepend z hx, hsz]
  have : (hd :: tl).headD [] = hd := rfl
  rw [this]
  have ht : (hd :: tl).tail = tl := rfl
  rw [ht, dropLast_cons_of_ne_nil' _ htl]
  exact List.mem_cons_self _ _

/-- The messages surfaced by a list of complete lines, in order. -/
def msgsOf (parse : List Char → Option JSValue) : List (List Char) → List JSValue
  | [] => []
  | l :: ls => lineMsgs parse l ++ msgsOf parse ls

theorem msgsOf_append (parse : List Char → Option JSValue) (l₁ l₂ : List (List Char)) :
    msgsOf parse (l₁ ++ l₂) = msgsOf parse l₁ ++ msgsOf parse l₂ := by
  induction l₁ with
  | nil => rfl
  | cons a t ih => simp [msgsOf, ih]

theorem foldl_processLine_snd (parse : List Char → Option JSValue)
    (lines : List (List Char)) : ∀ w ms,
    (lines.foldl (processLine parse) (w, ms)).2 = ms ++ msgsOf parse lines := by
  induction lines with
  | nil => intro w ms; simp [msgsOf]
  | cons line rest ih =>
    intro w ms
    rw [List.foldl_cons]
    by_cases ht : (trimChars line).isEmpty
    · have hp : processLine parse (w, ms) line = (w, ms) := by
        simp [processLine, ht]
      rw [hp, ih w ms]
      simp [msgsOf, lineMsgs, ht]
    · cases hp : parse (trimChars line) with
      | some v =>
        have hq : processLine parse (w, ms) line = (w, ms ++ handleMessage v) := by
          simp [processLine, ht, hp]
        rw [hq, ih w (ms ++ handleMessage v)]
        simp [msgsOf, lineMsgs, ht, hp]
      | none =>
        have hq : processLine parse (w, ms) line = (true, ms) := by
          simp [processLine, ht, hp]
        rw [hq, ih true ms]
        simp [msgsOf, lineMsgs, ht, hp]

theorem writeChunk_msgs (parse : List Char → Option JSValue) (s : ParserState)
    (c : List Char) :
    (writeChunk parse s c).2 = msgsOf parse (completeLines (s.buffer ++ c)) := by
  unfold writeChunk completeLines
  rw [foldl_processLine_snd]
  simp

theorem writeChunk_buffer (parse : List Char → Option JSValue) (s : ParserState)
    (c : List Char) :
    (writeChunk parse s c).1.buffer =
      if (lastPiece (s.buffer ++ c)).length > 65536 then [] else lastPiece (s.buffer ++ c) :=
  rfl

theorem writeChunk_buffer_no_newline (parse : List Char → Option JSValue)
    (s : ParserState) (c : List Char) : '\n' ∉ (writeChunk parse s c).1.buffer := by
  rw [writeChunk_buffer]
  split
  · simp
  · exact lastPiece_no_mem_newline _

/-- The concatenation of a chunk list into one stream. -/
def joinChunks : List (List Char) → List Char
  | [] => []
  | c :: cs => c ++ joinChunks cs

theorem writeAll_no_newline (parse : List Char → Option JSValue) :
    ∀ (chunks : List (List Char)) (s : ParserState), '\n' ∉ s.buffer →
    '\n' ∉ joinChunks chunks → (writeAll parse s chunks).2 = [] := by
  intro chunks
  induction chunks with
  | nil => intro s _ _; rfl
  | cons c cs ih =>
    intro s hb hj
    have hc : '\n' ∉ c := fun m => hj (by simp [joinChunks, m])
    have hcs : '\n' ∉ joinChunks cs := fun m => hj (by simp [joinChunks, m])
    have hbc : '\n' ∉ s.buffer ++ c := by
      intro m
      rcases List.mem_append.mp m with m1 | m1
      · exact hb m1
      · exact hc m1
    show ((writeChunk parse s c).2 ++ (writeAll parse (writeChunk parse s c).1 cs).2) = []
    rw [writeChunk_msgs, completeLines_no_newline hbc,
      ih _ (writeChunk_buffer_no_newline parse s c) hcs]
    rfl

/-- Feeding any chunk sequence equals parsing the complete lines of the
concatenated stream, as long as every complete line fits under the
65536-character accumulator ceiling. -/
theorem writeAll_msgs (parse : List Char → Option JSValue) :
    ∀ (chunks : List (List Char)) (s : ParserState), '\n' ∉ s.buffer →
    (∀ l ∈ completeLines (s.buffer ++ joinChunks chunks), l.length ≤ 65536) →
    (writeAll parse s chunks).2 = msgsOf parse (completeLines (s.buffer ++ joinChunks chunks)) := by
  intro chunks
  induction chunks with
  | nil =>
    intro s hb _
    show ([] : List JSValue) = _
    rw [show joinChunks [] = [] from rfl, List.append_nil, completeLines_no_newline hb]
    rfl
  | cons c cs ih =>
    intro s hb H
    have hjoin : s.buffer ++ joinChunks (c :: cs) = (s.buffer ++ c) ++ joinChunks cs := by
      show s.buffer ++ (c ++ joinChunks cs) = _
      rw [List.append_assoc]
    rw [hjoin] at H ⊢
    rw [completeLines_append] at H ⊢
    rw [msgsOf_append]
    have H1 : ∀ l ∈ completeLines (lastPiece (s.buffer ++ c) ++ joinChunks cs),
        l.length ≤ 65536 := by
      intro l hl
      exact H l (List.mem_append.mpr (Or.inr hl))
    show ((writeChunk parse s c).2 ++ (writeAll parse (writeChunk parse s c).1 cs).2) = _
    rw [writeChunk_msgs]
    congr 1
    by_cases hlen : (lastPiece (s.buffer ++ c)).length > 65536
    · -- the trailing piece was discarded; no later newline may exist
      have hnonl : '\n' ∉ joinChunks cs := by
        intro hm
        obtain ⟨w, hw⟩ :=
          exists_line_with_prefix (lastPiece_no_mem_newline (s.buffer ++ c)) hm
        have := H1 _ hw
        have hlong : 65536 < (lastPiece (s.buffer ++ c) ++ w).length := by
          rw [List.length_append]
          omega
        omega
      have hnl2 : '\n' ∉ lastPiece (s.buffer ++ c) ++ joinChunks cs := by
        intro m
        rcases List.mem_append.mp m with m1 | m1
        · exact lastPiece_no_mem_newline _ m1
        · exact hnonl m1
      rw [completeLines_no_newline hnl2]
      have hbuf : (writeChunk parse s c).1.buffer = [] := by
        rw [writeChunk_buffer, if_pos hlen]
      rw [writeAll_no_newline parse cs _ (by rw [hbuf]; simp) hnonl]
      rfl
    · have hbuf : (writeChunk parse s c).1.buffer = lastPiece (s.buffer ++ c) := by
        rw [writeChunk_buffer, if_neg hlen]
      have := ih (writeChunk parse s c).1 (writeChunk_buffer_no_newline parse s c)
        (by rw [hbuf]; exact H1)
      rw [this, hbuf]

theorem joinChunks_single (z : List Char) : joinChunks [z] = z := by
  simp [joinChunks]

theorem writeAll_cons (parse : List Char → Option JSValue) (s : ParserState)
    (c : List Char) (cs : List (List Char)) :
    (writeAll parse s (c :: cs)).2 =
      (writeChunk parse s c).2 ++ (writeAll parse (writeChunk parse s c).1 cs).2 := rfl

theorem writeAll_single (parse : List Char → Option JSValue) (s : ParserState)
    (c : List Char) : (writeAll parse s [c]).2 = (writeChunk parse s c).2 := by
  rw [writeAll_cons]
  simp [writeAll]

/-- C2 (amended): the Protocol Observer, given a byte stream split
arbitrarily across chunk boundaries, yields the same ordered sequence of
decoded messages as parsing the whole stream at once, provided every
complete line of the stream is at most 65536 characters long (the
accumulator ceiling of `StratumParser.write`). -/
theorem stratumParser_chunking_invariance (parse : List Char → Option JSValue)
    (chunks : List (List Char))
    (H : ∀ l ∈ completeLines (joinChunks chunks), l.length ≤ 65536) :
    (writeAll parse initParser chunks).2 =
      (writeAll parse initParser [joinChunks chunks]).2 := by
  have hb : '\n' ∉ initParser.buffer := by simp [initParser]
  have e1 := writeAll_msgs parse chunks initParser hb
    (by simpa [initParser] using H)
  have e2 := writeAll_msgs parse [joinChunks chunks] initParser hb
    (by simpa [initParser, joinChunks_single] using H)
  rw [e1, e2, joinChunks_single]

/-- Witness for the chunking-invariance theorem on a concrete split. -/
theorem stratumParser_chunking_invariance_witness :
    (∀ l ∈ completeLines (joinChunks [['a'], ['\n']]), l.length ≤ 65536) ∧
    (writeAll (fun _ => none) initParser [['a'], ['\n']]).2 =
      (writeAll (fun _ => none) initParser [joinChunks [['a'], ['\n']]]).2 :=
  ⟨by decide, stratumParser_chunking_invariance (fun _ => none) [['a'], ['\n']] (by decide)⟩

/-- A JSON object line longer than the 65536-character accumulator
ceiling: an object with one key a whose value is a string of 70000
copies of the letter a. -/
def longLineChars : List Char :=
  '\x7b' :: '"' :: 'a' :: '"' :: ':' :: '"' ::
    (List.replicate 70000 'a' ++ ['"', '\x7d'])

/-- The value the JSON builtin yields for `longLineChars`. -/
def longLineValue : JSValue :=
  JSValue.obj [("a", JSValue.str (String.mk (List.replicate 70000 'a')))]

/-- Instantiation of the abstract JSON.parse, agreeing with the builtin
on the one line of the counterexample (the only line it is asked for). -/
def parseLongLine : List Char → Option JSValue :=
  fun t => if t = longLineChars then some longLineValue else none

theorem longLineChars_no_newline : '\n' ∉ longLineChars := by
  unfold longLineChars
  simp only [List.mem_cons, List.mem_append, List.mem_replicate, List.not_mem_nil,
    or_false]
  decide

theorem longLineChars_no_space : ∀ c ∈ longLineChars, isJsSpace c = false := by
  intro c hc
  unfold longLineChars at hc
  simp only [List.mem_cons, List.mem_append, List.mem_replicate, List.not_mem_nil,
    or_false] at hc
  rcases hc with h | h | h | h | h | h | ⟨_, h⟩ | h | h <;> subst h <;> decide

theorem dropWhile_eq_self_of_all {l : List Char}
    (h : ∀ c ∈ l, isJsSpace c = false) : l.dropWhile isJsSpace = l := by
  cases l with
  | nil => rfl
  | cons a t => simp [List.dropWhile_cons, h a (List.mem_cons_self a t)]

theorem trimChars_eq_self {l : List Char} (h : ∀ c ∈ l, isJsSpace c = false) :
    trimChars l = l := by
  unfold trimChars
  rw [dropWhile_eq_self_of_all h,
    dropWhile_eq_self_of_all (fun c hc => h c (List.mem_reverse.mp hc)),
    List.reverse_reverse]

theorem longLineChars_length : longLineChars.length = 70008 := by
  unfold longLineChars
  rw [List.length_cons, List.length_cons, List.length_cons, List.length_cons,
    List.length_cons, List.length_cons, List.length_append, List.length_replicate]
  rfl

theorem parseLongLine_eval : parseLongLine longLineChars = some longLineValue := by
  unfold parseLongLine
  simp only [if_pos, eq_self_iff_true, if_true]

theorem handleMessage_longLineValue : handleMessage longLineValue = [longLineValue] := by
  have h1 : jsTruthy longLineValue = true := rfl
  have h2 : jsTypeof longLineValue = "object" := rfl
  unfold handleMessage
  rw [h1, h2]
  rfl

theorem lineMsgs_longLine : lineMsgs parseLongLine longLineChars = [longLineValue] := by
  unfold lineMsgs
  rw [trimChars_eq_self longLineChars_no_space]
  have hne : longLineChars.isEmpty = false := rfl
  simp only [hne, Bool.false_eq_true, if_neg, not_false_eq_true]
  rw [parseLongLine_eval]
  exact handleMessage_longLineValue

theorem whole_feed_surfaces :
    (writeAll parseLongLine initParser [longLineChars ++ ['\n']]).2 = [longLineValue] := by
  have hnl := longLineChars_no_newline
  rw [writeAll_single, writeChunk_msgs]
  have hbuf : initParser.buffer ++ (longLineChars ++ ['\n']) = longLineChars ++ ['\n'] := rfl
  rw [hbuf]
  have hsplit : splitNL (longLineChars ++ ['\n']) = [longLineChars ++ [], [[]].getLastD []] := by
    rw [splitNL_prepend ['\n'] hnl]
    rfl
  unfold completeLines
  rw [hsplit]
  simp only [List.append_nil]
  have hdrop : ([longLineChars, ([[]] : List (List Char)).getLastD []]).dropLast =
      [longLineChars] := rfl
  rw [hdrop]
  show lineMsgs parseLongLine longLineChars ++ [] = [longLineValue]
  rw [List.append_nil]
  exact lineMsgs_longLine

theorem chunked_feed_drops :
    (writeAll parseLongLine initParser [longLineChars, ['\n']]).2 = [] := by
  have hnl := longLineChars_no_newline
  rw [writeAll_cons, writeChunk_msgs]
  have hb0 : initParser.buffer ++ longLineChars = longLineChars := rfl
  rw [hb0, completeLines_no_newline hnl]
  have hbuf1 : (writeChunk parseLongLine initParser longLineChars).1.buffer = [] := by
    rw [writeChunk_buffer, hb0, lastPiece_no_newline hnl]
    rw [if_pos (by rw [longLineChars_length]; omega)]
  rw [writeAll_single, writeChunk_msgs, hbuf1]
  rfl

/-- C2 counterexample: a single 70008-character JSON object line
followed by a newline, fed as two chunks (the line, then the newline),
surfaces no message — the accumulator exceeds the ceiling before the
newline arrives and is discarded — while the same stream fed whole
surfaces the decoded object.  So chunking invariance fails without the
line-length proviso. -/
theorem stratumParser_chunking_counterexample :
    (writeAll parseLongLine initParser [longLineChars, ['\n']]).2 ≠
      (writeAll parseLongLine initParser [joinChunks [longLineChars, ['\n']]]).2 := by
  have hjoin : joinChunks [longLineChars, ['\n']] = longLineChars ++ ['\n'] := by
    simp [joinChunks]
  rw [hjoin, whole_feed_surfaces, chunked_feed_drops]
  simp

/-- C9: after every call to `StratumParser.write` the accumulator holds
at most 65536 characters; it equals the trailing piece of the input
unless that piece exceeds the ceiling, in which case it is discarded
entirely.  `writeChunk` is a total function: no internal error escapes
the observer. -/
theorem stratumParser_accumulator_bounded (parse : List Char → Option JSValue)
    (s : ParserState) (c : List Char) :
    (writeChunk parse s c).1.buffer.length ≤ 65536 ∧
    (writeChunk parse s c).1.buffer =
      (if 65536 < (lastPiece (s.buffer ++ c)).length then []
       else lastPiece (s.buffer ++ c)) := by
  refine ⟨?_, writeChunk_buffer parse s c⟩
  rw [writeChunk_buffer]
  split
  · simp
  · omega

/-- C10: for a complete nonblank line, the Observer surfaces a decoded
message iff the JSON parse succeeds with a truthy value whose typeof is
object; a top-level array qualifies, while null, booleans, numbers and
strings do not; and a successful parse never sets the once-only non-JSON
warning flag. -/
theorem stratumParser_line_surfacing (parse : List Char → Option JSValue)
    (w : Bool) (line : List Char) (hnl : '\n' ∉ line)
    (hne : (trimChars line).isEmpty = false) :
    ((writeChunk parse ⟨[], w⟩ (line ++ ['\n'])).2 =
      match parse (trimChars line) with
      | some v => if jsTruthy v && (jsTypeof v == "object") then [v] else []
      | none => []) ∧
    (∀ v, parse (trimChars line) = some v →
      (writeChunk parse ⟨[], w⟩ (line ++ ['\n'])).1.nonJsonWarned = w) ∧
    (∀ xs, (jsTruthy (JSValue.arr xs) && (jsTypeof (JSValue.arr xs) == "object")) = true) ∧
    ((jsTruthy JSValue.null && (jsTypeof JSValue.null == "object")) = false) ∧
    (∀ b, (jsTruthy (JSValue.bool b) && (jsTypeof (JSValue.bool b) == "object")) = false) ∧
    (∀ n, (jsTruthy (JSValue.num n) && (jsTypeof (JSValue.num n) == "object")) = false) ∧
    (∀ s, (jsTruthy (JSValue.str s) && (jsTypeof (JSValue.str s) == "object")) = false) := by
  have hsplit : splitNL (([] : List Char) ++ (line ++ ['\n'])) =
      (line ++ []) :: [[]] := by
    rw [List.nil_append, splitNL_prepend ['\n'] hnl]
    rfl
  refine ⟨?_, ?_, ?_, ?_, ?_, ?_, ?_⟩
  · rw [writeChunk_msgs]
    show msgsOf parse (completeLines (([] : List Char) ++ (line ++ ['\n']))) = _
    unfold completeLines
    rw [hsplit]
    show lineMsgs parse (line ++ []) ++ [] = _
    rw [List.append_nil, List.append_nil]
    unfold lineMsgs
    simp only [hne, Bool.false_eq_true, if_neg, not_false_eq_true]
    cases parse (trimChars line) with
    | some v => rfl
    | none => rfl
  · intro v hv
    show ((splitNL (([] : List Char) ++ (line ++ ['\n']))).dropLast.foldl
      (processLine parse) (w, [])).1 = w
    rw [hsplit]
    show (processLine parse (w, []) (line ++ [])).1 = w
    rw [List.append_nil]
    unfold processLine
    simp only [hne, Bool.false_eq_true, if_neg, not_false_eq_true, hv]
  · intro xs; rfl
  · rfl
  · intro b
    have h : (jsTypeof (JSValue.bool b) == "object") = false := rfl
    rw [h, Bool.and_false]
  · intro n
    have h : (jsTypeof (JSValue.num n) == "object") = false := rfl
    rw [h, Bool.and_false]
  · intro s
    have h : (jsTypeof (JSValue.str s) == "object") = false := rfl
    rw [h, Bool.and_false]

/-- Witness for the line-surfacing theorem: the line 5 parses as the
number 5 and is discarded without a message. -/
theorem stratumParser_line_surfacing_witness :
    ('\n' ∉ ['5']) ∧ ((trimChars ['5']).isEmpty = false) ∧
    (((writeChunk (fun t => if t = ['5'] then some (JSValue.num 5) else none)
        ⟨[], false⟩ (['5'] ++ ['\n'])).2 =
      match (fun t => if t = ['5'] then some (JSValue.num 5) else none) (trimChars ['5']) with
      | some v => if jsTruthy v && (jsTypeof v == "object") then [v] else []
      | none => []) ∧
    (∀ v, (fun t => if t = ['5'] then some (JSValue.num 5) else none) (trimChars ['5']) = some v →
      (writeChunk (fun t => if t = ['5'] then some (JSValue.num 5) else none)
        ⟨[], false⟩ (['5'] ++ ['\n'])).1.nonJsonWarned = false) ∧
    (∀ xs, (jsTruthy (JSValue.arr xs) && (jsTypeof (JSValue.arr xs) == "object")) = true) ∧
    ((jsTruthy JSValue.null && (jsTypeof JSValue.null == "object")) = false) ∧
    (∀ b, (jsTruthy (JSValue.bool b) && (jsTypeof (JSValue.bool b) == "object")) = false) ∧
    (∀ n, (jsTruthy (JSValue.num n) && (jsTypeof (JSValue.num n) == "object")) = false) ∧
    (∀ s, (jsTruthy (JSValue.str s) && (jsTypeof (JSValue.str s) == "object")) = false)) :=
  ⟨by decide, by decide,
    stratumParser_line_surfacing (fun t => if t = ['5'] then some (JSValue.num 5) else none)
      false ['5'] (by decide) (by decide)⟩

/-! ## ProxyConnection (connection.ts)

The relay owns the client (downstream) and pool (upstream) sockets.
Socket effects are modelled explicitly: `clientWritten`/`poolWritten`
accumulate every character passed to `socket.write` (a Node socket
buffers writes, so a write call never loses data); the boolean returned
by `write` (false when the outbound buffer is saturated) is an input
`canWrite` supplied by the environment; `pause`/`resume`/`destroy`
become flags. -/

/-- `ConnectionLabels` of shared-types. -/
structure ConnLabels where
  client_id : String
  client_ip : String
  pool_host : String
  pool_port : Int
deriving Repr, DecidableEq

/-- `ProxyEventType` of shared-types (the cases the relay emits). -/
inductive ProxyEventType where
  | connectionOpened
  | connectionClosed
  | bytesSent
  | bytesReceived
  | stratumRequest
  | stratumResponse
  | stratumNotification
  | error
deriving Repr, DecidableEq

/-- The type-specific payload of a `ProxyEvent`. -/
inductive EventData where
  | opened (connectLatencyMs : Int)
  | closed (durationMs : Int) (bytesSentTotal bytesReceivedTotal : Nat)
  | bytes (n : Nat)
  | message (m : JSValue)
  | errorInfo (source : String)
deriving Repr

/-- `ProxyEvent` of shared-types: type, timestamp, connection id, the
labels at emission time, payload. -/
structure ProxyEvent where
  type : ProxyEventType
  timestamp : Int
  connection_id : String
  labels : ConnLabels
  data : EventData
deriving Repr

/-- Mutable state of one `ProxyConnection`. -/
structure ConnState where
  connectionId : String
  labels : ConnLabels
  startTime : Int
  bytesSent : Nat
  bytesReceived : Nat
  parser : ParserState
  responseParser : ParserState
  closed : Bool
  idleTimerActive : Bool
  lastActivityTime : Int
  workerName : Option String
  clientPaused : Bool
  poolPaused : Bool
  clientDestroyed : Bool
  poolDestroyed : Bool
  clientWritten : List Char
  poolWritten : List Char
  events : List ProxyEvent
deriving Repr

namespace ProxyConnection

/-- `ProxyConnection.emitEvent`: append an event carrying the current
labels. -/
def emitEvent (s : ConnState) (t : ProxyEventType) (now : Int) (d : EventData) :
    ConnState :=
  { s with events := s.events ++ [⟨t, now, s.connectionId, s.labels, d⟩] }

/-- `message.method === name` (strict equality against a string literal). -/
def isMethod (m : JSValue) (name : String) : Bool :=
  match jsGet m "method" with
  | some (JSValue.str s) => s == name
  | _ => false

/-- `Array.isArray(message.params) && message.params[0]`: the first
element of the params array, if params is an array (an out-of-range
index reads as undefined). -/
def firstParam (m : JSValue) : Option JSValue :=
  match jsGet m "params" with
  | some (JSValue.arr ps) => ps.head?
  | _ => none

/-- `ProxyConnection.handleClientMessage` (connection.ts lines 201-243):
bind the worker identity on the first truthy-param `mining.authorize`,
then emit a STRATUM_REQUEST event (always, for every client message). -/
def handleClientMessage (now : Int) (s : ConnState) (m : JSValue) : ConnState :=
  let newWorker : Option String :=
    if isMethod m "mining.authorize" then
      match firstParam m with
      | some p => if jsTruthy p then some (jsValToString p) else none
      | none => none
    else none
  let s1 :=
    match newWorker with
    | some nw =>
      if s.workerName.isNone && (nw != "") then
        { s with workerName := some nw, labels := { s.labels with client_id := nw } }
      else s
    | none => s
  emitEvent s1 ProxyEventType.stratumRequest now (EventData.message m)

/-- `'method' in message && message.method` of
`ProxyConnection.handlePoolMessage` (connection.ts line 290). -/
def poolHasTruthyMethod (m : JSValue) : Bool :=
  match jsGet m "method" with
  | some v => jsTruthy v
  | none => false

/-- The event type `handlePoolMessage` emits for a pool message. -/
def poolMessageEventType (m : JSValue) : ProxyEventType :=
  if poolHasTruthyMethod m then ProxyEventType.stratumNotification
  else ProxyEventType.stratumResponse

/-- The event type `handleClientMessage` emits for a client message:
always STRATUM_REQUEST (connection.ts line 242). -/
def clientMessageEventType (_ : JSValue) : ProxyEventType :=
  ProxyEventType.stratumRequest

/-- `ProxyConnection.handlePoolMessage` (connection.ts lines 245-295):
log-only inspection, then emit a notification event when the message
has a truthy method, otherwise a response event. -/
def handlePoolMessage (now : Int) (s : ConnState) (m : JSValue) : ConnState :=
  emitEvent s (poolMessageEventType m) now (EventData.message m)

/-- Steps (1)-(3) of the client-socket data listener (connection.ts
lines 85-90): reset the idle timer, count and report the bytes, feed
the observer, dispatching each decoded message to
`handleClientMessage`. -/
def clientDataObserved (parse : List Char → Option JSValue) (now : Int)
    (s : ConnState) (data : List Char) : ConnState :=
  let s1 := { s with lastActivityTime := now, idleTimerActive := true }
  let s2 := { s1 with bytesSent := s1.bytesSent + data.length }
  let s3 := emitEvent s2 ProxyEventType.bytesSent now (EventData.bytes data.length)
  let pr := writeChunk parse s3.parser data
  pr.2.foldl (handleClientMessage now) { s3 with parser := pr.1 }

/-- The client-socket data listener (connection.ts lines 83-101):
when not closed, observe the chunk, then forward it to the pool socket,
pausing the client when the pool write reports a saturated buffer. -/
def handleClientData (parse : List Char → Option JSValue) (now : Int)
    (canWrite : Bool) (s : ConnState) (data : List Char) : ConnState :=
  if s.closed then s
  else
    let s4 := clientDataObserved parse now s data
    if !s4.poolDestroyed then
      let s5 := { s4 with poolWritten := s4.poolWritten ++ data }
      if !canWrite then { s5 with clientPaused := true } else s5
    else s4

/-- Steps (1)-(3) of the pool-socket data listener (connection.ts
lines 144-158): reset the idle timer, count and report the bytes, feed
the response observer, dispatching each decoded message to
`handlePoolMessage`. -/
def poolDataObserved (parse : List Char → Option JSValue) (now : Int)
    (s : ConnState) (data : List Char) : ConnState :=
  let s1 := { s with lastActivityTime := now, idleTimerActive := true }
  let s2 := { s1 with bytesReceived := s1.bytesReceived + data.length }
  let s3 := emitEvent s2 ProxyEventType.bytesReceived now (EventData.bytes data.length)
  let pr := writeChunk parse s3.responseParser data
  pr.2.foldl (handlePoolMessage now) { s3 with responseParser := pr.1 }

/-- The pool-socket data listener (connection.ts lines 142-169):
symmetric to `handleClientData`; the pause additionally rechecks that
the pool socket is not destroyed. -/
def handlePoolData (parse : List Char → Option JSValue) (now : Int)
    (canWrite : Bool) (s : ConnState) (data : List Char) : ConnState :=
  if s.closed then s
  else
    let s4 := poolDataObserved parse now s data
    if !s4.clientDestroyed then
      let s5 := { s4 with clientWritten := s4.clientWritten ++ data }
      if !canWrite && !s4.poolDestroyed then { s5 with poolPaused := true } else s5
    else s4

/-- The client-socket drain listener (connection.ts lines 113-119):
resume the pool socket if it is alive and paused. -/
def handleClientDrain (s : ConnState) : ConnState :=
  if !s.poolDestroyed && s.poolPaused then { s with poolPaused := false } else s

/-- The pool-socket drain listener (connection.ts lines 171-177):
resume the client socket if it is alive and paused. -/
def handlePoolDrain (s : ConnState) : ConnState :=
  if !s.clientDestroyed && s.clientPaused then { s with clientPaused := false } else s

/-- `ProxyConnection.close` (connection.ts lines 331-361): a no-op when
already closed; otherwise set the closed flag, cancel the idle timer,
destroy both sockets, and emit one CONNECTION_CLOSED event carrying the
final duration and byte totals. -/
def close (now : Int) (s : ConnState) : ConnState :=
  if s.closed then s
  else
    let s1 := { s with closed := true, idleTimerActive := false,
                       clientDestroyed := true, poolDestroyed := true }
    emitEvent s1 ProxyEventType.connectionClosed now
      (EventData.closed (now - s.startTime) s.bytesSent s.bytesReceived)

end ProxyConnection

/-- The number of CONNECTION_CLOSED events in an event list. -/
def closedEventCount (evs : List ProxyEvent) : Nat :=
  (evs.filter (fun e => e.type == ProxyEventType.connectionClosed)).length

/-- C7: closing is idempotent — the first call sets the closed flag,
cancels the idle timer, destroys both transports and emits exactly one
CONNECTION_CLOSED event carrying the final duration and byte totals; a
second (or any later) call is a no-op. -/
theorem connection_close_spec (s : ConnState) (t1 t2 : Int) (h : s.closed = false) :
    (ProxyConnection.close t1 s).closed = true ∧
    (ProxyConnection.close t1 s).idleTimerActive = false ∧
    (ProxyConnection.close t1 s).clientDestroyed = true ∧
    (ProxyConnection.close t1 s).poolDestroyed = true ∧
    (ProxyConnection.close t1 s).events = s.events ++
      [⟨ProxyEventType.connectionClosed, t1, s.connectionId, s.labels,
        EventData.closed (t1 - s.startTime) s.bytesSent s.bytesReceived⟩] ∧
    closedEventCount (ProxyConnection.close t1 s).events =
      closedEventCount s.events + 1 ∧
    ProxyConnection.close t2 (ProxyConnection.close t1 s) = ProxyConnection.close t1 s := by
  have hc : ProxyConnection.close t1 s =
      { s with closed := true, idleTimerActive := false,
               clientDestroyed := true, poolDestroyed := true,
               events := s.events ++
                 [⟨ProxyEventType.connectionClosed, t1, s.connectionId, s.labels,
                   EventData.closed (t1 - s.startTime) s.bytesSent s.bytesReceived⟩] } := by
    unfold ProxyConnection.close ProxyConnection.emitEvent
    rw [h]
    rfl
  rw [hc]
  refine ⟨rfl, rfl, rfl, rfl, rfl, ?_, ?_⟩
  · simp [closedEventCount, List.filter_append]
  · unfold ProxyConnection.close
    rfl

/-- A concrete live connection used by witnesses. -/
def sampleConn : ConnState :=
  { connectionId := "c1"
    labels := ⟨"miner-1", "127.0.0.1", "pool.example", 3333⟩
    startTime := 100
    bytesSent := 5
    bytesReceived := 7
    parser := initParser
    responseParser := initParser
    closed := false
    idleTimerActive := true
    lastActivityTime := 100
    workerName := none
    clientPaused := false
    poolPaused := false
    clientDestroyed := false
    poolDestroyed := false
    clientWritten := []
    poolWritten := []
    events := [] }

/-- Witness: closing the sample connection twice equals closing it once. -/
theorem connection_close_spec_witness :
    sampleConn.closed = false ∧
    ProxyConnection.close 200 (ProxyConnection.close 150 sampleConn) =
      ProxyConnection.close 150 sampleConn :=
  ⟨rfl, (connection_close_spec sampleConn 150 200 rfl).2.2.2.2.2.2⟩

/-- `handleClientMessage` only rebinds the worker identity and labels
and appends one STRATUM_REQUEST event. -/
theorem handleClientMessage_cases (now : Int) (s : ConnState) (m : JSValue) :
    ∃ lab wn, ProxyConnection.handleClientMessage now s m =
      { s with workerName := wn, labels := lab,
               events := s.events ++
                 [⟨ProxyEventType.stratumRequest, now, s.connectionId, lab,
                   EventData.message m⟩] } := by
  unfold ProxyConnection.handleClientMessage ProxyConnection.emitEvent
  dsimp only
  split
  next w heq =>
    split
    next hc => exact ⟨{ s.labels with client_id := w }, some w, rfl⟩
    next hc => exact ⟨s.labels, s.workerName, rfl⟩
  next heq => exact ⟨s.labels, s.workerName, rfl⟩

theorem handleClientMessage_fields (now : Int) (s : ConnState) (m : JSValue) :
    (ProxyConnection.handleClientMessage now s m).poolWritten = s.poolWritten ∧
    (ProxyConnection.handleClientMessage now s m).clientWritten = s.clientWritten ∧
    (ProxyConnection.handleClientMessage now s m).bytesSent = s.bytesSent ∧
    (ProxyConnection.handleClientMessage now s m).bytesReceived = s.bytesReceived ∧
    (ProxyConnection.handleClientMessage now s m).closed = s.closed ∧
    (ProxyConnection.handleClientMessage now s m).poolDestroyed = s.poolDestroyed ∧
    (ProxyConnection.handleClientMessage now s m).clientDestroyed = s.clientDestroyed ∧
    (ProxyConnection.handleClientMessage now s m).clientPaused = s.clientPaused ∧
    (ProxyConnection.handleClientMessage now s m).poolPaused = s.poolPaused := by
  obtain ⟨lab, wn, he⟩ := handleClientMessage_cases now s m
  rw [he]
  exact ⟨rfl, rfl, rfl, rfl, rfl, rfl, rfl, rfl, rfl⟩

theorem foldl_clientMsg_fields (now : Int) (msgs : List JSValue) : ∀ (s : ConnState),
    ((msgs.foldl (ProxyConnection.handleClientMessage now) s).poolWritten = s.poolWritten) ∧
    ((msgs.foldl (ProxyConnection.handleClientMessage now) s).clientWritten = s.clientWritten) ∧
    ((msgs.foldl (ProxyConnection.handleClientMessage now) s).bytesSent = s.bytesSent) ∧
    ((msgs.foldl (ProxyConnection.handleClientMessage now) s).bytesReceived = s.bytesReceived) ∧
    ((msgs.foldl (ProxyConnection.handleClientMessage now) s).closed = s.closed) ∧
    ((msgs.foldl (ProxyConnection.handleClientMessage now) s).poolDestroyed = s.poolDestroyed) ∧
    ((msgs.foldl (ProxyConnection.handleClientMessage now) s).clientDestroyed = s.clientDestroyed) ∧
    ((msgs.foldl (ProxyConnection.handleClientMessage now) s).clientPaused = s.clientPaused) ∧
    ((msgs.foldl (ProxyConnection.handleClientMessage now) s).poolPaused = s.poolPaused) := by
  induction msgs with
  | nil => intro s; exact ⟨rfl, rfl, rfl, rfl, rfl, rfl, rfl, rfl, rfl⟩
  | cons m rest ih =>
    intro s
    have h1 := handleClientMessage_fields now s m
    have h2 := ih (ProxyConnection.handleClientMessage now s m)
    rw [List.foldl_cons]
    exact ⟨h2.1.trans h1.1, h2.2.1.trans h1.2.1, h2.2.2.1.trans h1.2.2.1,
      h2.2.2.2.1.trans h1.2.2.2.1, h2.2.2.2.2.1.trans h1.2.2.2.2.1,
      h2.2.2.2.2.2.1.trans h1.2.2.2.2.2.1, h2.2.2.2.2.2.2.1.trans h1.2.2.2.2.2.2.1,
      h2.2.2.2.2.2.2.2.1.trans h1.2.2.2.2.2.2.2.1,
      h2.2.2.2.2.2.2.2.2.trans h1.2.2.2.2.2.2.2.2⟩

theorem handlePoolMessage_eq (now : Int) (s : ConnState) (m : JSValue) :
    ProxyConnection.handlePoolMessage now s m =
      { s with events := s.events ++
          [⟨ProxyConnection.poolMessageEventType m, now, s.connectionId, s.labels,
            EventData.message m⟩] } := rfl

theorem foldl_poolMsg_fields (now : Int) (msgs : List JSValue) : ∀ (s : ConnState),
    ((msgs.foldl (ProxyConnection.handlePoolMessage now) s).poolWritten = s.poolWritten) ∧
    ((msgs.foldl (ProxyConnection.handlePoolMessage now) s).clientWritten = s.clientWritten) ∧
    ((msgs.foldl (ProxyConnection.handlePoolMessage now) s).bytesSent = s.bytesSent) ∧
    ((msgs.foldl (ProxyConnection.handlePoolMessage now) s).bytesReceived = s.bytesReceived) ∧
    ((msgs.foldl (ProxyConnection.handlePoolMessage now) s).closed = s.closed) ∧
    ((msgs.foldl (ProxyConnection.handlePoolMessage now) s).poolDestroyed = s.poolDestroyed) ∧
    ((msgs.foldl (ProxyConnection.handlePoolMessage now) s).clientDestroyed = s.clientDestroyed) ∧
    ((msgs.foldl (ProxyConnection.handlePoolMessage now) s).clientPaused = s.clientPaused) ∧
    ((msgs.foldl (ProxyConnection.handlePoolMessage now) s).poolPaused = s.poolPaused) := by
  induction msgs with
  | nil => intro s; exact ⟨rfl, rfl, rfl, rfl, rfl, rfl, rfl, rfl, rfl⟩
  | cons m rest ih =>
    intro s
    have h2 := ih (ProxyConnection.handlePoolMessage now s m)
    rw [List.foldl_cons]
    rw [handlePoolMessage_eq] at h2
    exact h2

theorem handleClientData_closed (parse : List Char → Option JSValue) (now : Int)
    (cw : Bool) (s : ConnState) (d : List Char) (h : s.closed = true) :
    ProxyConnection.handleClientData parse now cw s d = s := by
  unfold ProxyConnection.handleClientData
  rw [h]
  rfl

theorem handlePoolData_closed (parse : List Char → Option JSValue) (now : Int)
    (cw : Bool) (s : ConnState) (d : List Char) (h : s.closed = true) :
    ProxyConnection.handlePoolData parse now cw s d = s := by
  unfold ProxyConnection.handlePoolData
  rw [h]
  rfl

theorem clientDataObserved_fields (parse : List Char → Option JSValue) (now : Int)
    (s : ConnState) (d : List Char) :
    (ProxyConnection.clientDataObserved parse now s d).poolWritten = s.poolWritten ∧
    (ProxyConnection.clientDataObserved parse now s d).clientWritten = s.clientWritten ∧
    (ProxyConnection.clientDataObserved parse now s d).bytesSent = s.bytesSent + d.length ∧
    (ProxyConnection.clientDataObserved parse now s d).bytesReceived = s.bytesReceived ∧
    (ProxyConnection.clientDataObserved parse now s d).closed = s.closed ∧
    (ProxyConnection.clientDataObserved parse now s d).poolDestroyed = s.poolDestroyed ∧
    (ProxyConnection.clientDataObserved parse now s d).clientDestroyed = s.clientDestroyed ∧
    (ProxyConnection.clientDataObserved parse now s d).clientPaused = s.clientPaused ∧
    (ProxyConnection.clientDataObserved parse now s d).poolPaused = s.poolPaused := by
  unfold ProxyConnection.clientDataObserved ProxyConnection.emitEvent
  dsimp only
  have hf := foldl_clientMsg_fields now (writeChunk parse s.parser d).2
    { s with lastActivityTime := now, idleTimerActive := true,
             bytesSent := s.bytesSent + d.length,
             events := s.events ++ [⟨ProxyEventType.bytesSent, now, s.connectionId,
               s.labels, EventData.bytes d.length⟩],
             parser := (writeChunk parse s.parser d).1 }
  exact hf

theorem poolDataObserved_fields (parse : List Char → Option JSValue) (now : Int)
    (s : ConnState) (d : List Char) :
    (ProxyConnection.poolDataObserved parse now s d).poolWritten = s.poolWritten ∧
    (ProxyConnection.poolDataObserved parse now s d).clientWritten = s.clientWritten ∧
    (ProxyConnection.poolDataObserved parse now s d).bytesSent = s.bytesSent ∧
    (ProxyConnection.poolDataObserved parse now s d).bytesReceived = s.bytesReceived + d.length ∧
    (ProxyConnection.poolDataObserved parse now s d).closed = s.closed ∧
    (ProxyConnection.poolDataObserved parse now s d).poolDestroyed = s.poolDestroyed ∧
    (ProxyConnection.poolDataObserved parse now s d).clientDestroyed = s.clientDestroyed ∧
    (ProxyConnection.poolDataObserved parse now s d).clientPaused = s.clientPaused ∧
    (ProxyConnection.poolDataObserved parse now s d).poolPaused = s.poolPaused := by
  unfold ProxyConnection.poolDataObserved ProxyConnection.emitEvent
  dsimp only
  have hf := foldl_poolMsg_fields now (writeChunk parse s.responseParser d).2
    { s with lastActivityTime := now, idleTimerActive := true,
             bytesReceived := s.bytesReceived + d.length,
             events := s.events ++ [⟨ProxyEventType.bytesReceived, now, s.connectionId,
               s.labels, EventData.bytes d.length⟩],
             responseParser := (writeChunk parse s.responseParser d).1 }
  exact hf


theorem handleClientData_step (parse : List Char → Option JSValue) (now : Int)
    (cw : Bool) (s : ConnState) (d : List Char) (hopen : s.closed = false)
    (halive : s.poolDestroyed = false) :
    (ProxyConnection.handleClientData parse now cw s d).poolWritten = s.poolWritten ++ d ∧
    (ProxyConnection.handleClientData parse now cw s d).bytesSent = s.bytesSent + d.length ∧
    (ProxyConnection.handleClientData parse now cw s d).closed = false ∧
    (ProxyConnection.handleClientData parse now cw s d).poolDestroyed = false ∧
    (ProxyConnection.handleClientData parse now cw s d).clientDestroyed = s.clientDestroyed ∧
    (ProxyConnection.handleClientData parse now cw s d).bytesReceived = s.bytesReceived ∧
    (ProxyConnection.handleClientData parse now cw s d).clientWritten = s.clientWritten ∧
    (ProxyConnection.handleClientData parse now cw s d).poolPaused = s.poolPaused ∧
    (ProxyConnection.handleClientData parse now cw s d).clientPaused =
      (s.clientPaused || !cw) := by
  obtain ⟨f1, f2, f3, f4, f5, f6, f7, f8, f9⟩ := clientDataObserved_fields parse now s d
  have hd : ProxyConnection.handleClientData parse now cw s d =
      (let s4 := ProxyConnection.clientDataObserved parse now s d
       if !s4.poolDestroyed then
         let s5 := { s4 with poolWritten := s4.poolWritten ++ d }
         if !cw then { s5 with clientPaused := true } else s5
       else s4) := by
    unfold ProxyConnection.handleClientData
    rw [hopen]
    rfl
  rw [hd]
  dsimp only
  have hcond : (!(ProxyConnection.clientDataObserved parse now s d).poolDestroyed) = true := by
    rw [f6, halive]
    rfl
  rw [if_pos hcond]
  cases cw with
  | false =>
    simp only [Bool.not_false, if_pos]
    refine ⟨by rw [f1], f3, f5.trans hopen, f6.trans halive, f7, f4, f2, f9, ?_⟩
    simp
  | true =>
    simp only [Bool.not_true, Bool.false_eq_true, if_neg, not_false_eq_true]
    refine ⟨by rw [f1], f3, f5.trans hopen, f6.trans halive, f7, f4, f2, f9, ?_⟩
    rw [Bool.or_false]
    exact f8

theorem handlePoolData_step (parse : List Char → Option JSValue) (now : Int)
    (cw : Bool) (s : ConnState) (d : List Char) (hopen : s.closed = false)
    (halive : s.clientDestroyed = false) :
    (ProxyConnection.handlePoolData parse now cw s d).clientWritten = s.clientWritten ++ d ∧
    (ProxyConnection.handlePoolData parse now cw s d).bytesReceived = s.bytesReceived + d.length ∧
    (ProxyConnection.handlePoolData parse now cw s d).closed = false ∧
    (ProxyConnection.handlePoolData parse now cw s d).clientDestroyed = false ∧
    (ProxyConnection.handlePoolData parse now cw s d).poolDestroyed = s.poolDestroyed ∧
    (ProxyConnection.handlePoolData parse now cw s d).bytesSent = s.bytesSent ∧
    (ProxyConnection.handlePoolData parse now cw s d).poolWritten = s.poolWritten ∧
    (ProxyConnection.handlePoolData parse now cw s d).clientPaused = s.clientPaused ∧
    (ProxyConnection.handlePoolData parse now cw s d).poolPaused =
      (s.poolPaused || (!cw && !s.poolDestroyed)) := by
  obtain ⟨f1, f2, f3, f4, f5, f6, f7, f8, f9⟩ := poolDataObserved_fields parse now s d
  have hd : ProxyConnection.handlePoolData parse now cw s d =
      (let s4 := ProxyConnection.poolDataObserved parse now s d
       if !s4.clientDestroyed then
         let s5 := { s4 with clientWritten := s4.clientWritten ++ d }
         if !cw && !s4.poolDestroyed then { s5 with poolPaused := true } else s5
       else s4) := by
    unfold ProxyConnection.handlePoolData
    rw [hopen]
    rfl
  rw [hd]
  dsimp only
  have hcond : (!(ProxyConnection.poolDataObserved parse now s d).clientDestroyed) = true := by
    rw [f7, halive]
    rfl
  rw [if_pos hcond]
  by_cases hp : (!cw && !(ProxyConnection.poolDataObserved parse now s d).poolDestroyed) = true
  · rw [if_pos hp]
    dsimp only
    refine ⟨by rw [f2], f4, f5.trans hopen, f7.trans halive, f6, f3, f1, f8, ?_⟩
    rw [f6] at hp
    rw [hp, Bool.or_true]
  · rw [if_neg hp]
    dsimp only
    refine ⟨by rw [f2], f4, f5.trans hopen, f7.trans halive, f6, f3, f1, f8, ?_⟩
    rw [f6] at hp
    have hp2 : (!cw && !s.poolDestroyed) = false := by
      cases h2 : (!cw && !s.poolDestroyed) with
      | false => rfl
      | true => exact absurd h2 hp
    rw [hp2, Bool.or_false]
    exact f9

/-- One data event delivered by a transport: its arrival time, the
boolean the opposite write call returns (false when that buffer is
saturated), and the chunk. -/
structure ChunkEvent where
  now : Int
  canWrite : Bool
  data : List Char
deriving Repr

/-- A sequence of data events on the client (downstream) transport. -/
def runClientData (parse : List Char → Option JSValue) (s : ConnState) :
    List ChunkEvent → ConnState
  | [] => s
  | e :: es =>
    runClientData parse (ProxyConnection.handleClientData parse e.now e.canWrite s e.data) es

/-- A sequence of data events on the pool (upstream) transport. -/
def runPoolData (parse : List Char → Option JSValue) (s : ConnState) :
    List ChunkEvent → ConnState
  | [] => s
  | e :: es =>
    runPoolData parse (ProxyConnection.handlePoolData parse e.now e.canWrite s e.data) es

theorem runClientData_spec (parse : List Char → Option JSValue) :
    ∀ (inputs : List ChunkEvent) (s : ConnState), s.closed = false →
    s.poolDestroyed = false →
    (runClientData parse s inputs).poolWritten =
      s.poolWritten ++ joinChunks (inputs.map ChunkEvent.data) ∧
    (runClientData parse s inputs).bytesSent =
      s.bytesSent + (joinChunks (inputs.map ChunkEvent.data)).length ∧
    (runClientData parse s inputs).closed = false ∧
    (runClientData parse s inputs).poolDestroyed = false := by
  intro inputs
  induction inputs with
  | nil =>
    intro s h1 h2
    refine ⟨(List.append_nil _).symm, ?_, h1, h2⟩
    show s.bytesSent = s.bytesSent + ([] : List Char).length
    simp
  | cons e es ih =>
    intro s h1 h2
    obtain ⟨g1, g2, g3, g4, _, _, _, _, _⟩ :=
      handleClientData_step parse e.now e.canWrite s e.data h1 h2
    obtain ⟨k1, k2, k3, k4⟩ :=
      ih (ProxyConnection.handleClientData parse e.now e.canWrite s e.data) g3 g4
    have hrun : runClientData parse s (e :: es) =
        runClientData parse (ProxyConnection.handleClientData parse e.now e.canWrite s e.data) es := rfl
    refine ⟨?_, ?_, by rw [hrun]; exact k3, by rw [hrun]; exact k4⟩
    · rw [hrun, k1, g1]
      show (s.poolWritten ++ e.data) ++ joinChunks (es.map ChunkEvent.data) =
        s.poolWritten ++ (e.data ++ joinChunks (es.map ChunkEvent.data))
      rw [List.append_assoc]
    · rw [hrun, k2, g2]
      show (s.bytesSent + e.data.length) + (joinChunks (es.map ChunkEvent.data)).length =
        s.bytesSent + (e.data ++ joinChunks (es.map ChunkEvent.data)).length
      rw [List.length_append]
      omega

theorem runPoolData_spec (parse : List Char → Option JSValue) :
    ∀ (inputs : List ChunkEvent) (s : ConnState), s.closed = false →
    s.clientDestroyed = false →
    (runPoolData parse s inputs).clientWritten =
      s.clientWritten ++ joinChunks (inputs.map ChunkEvent.data) ∧
    (runPoolData parse s inputs).bytesReceived =
      s.bytesReceived + (joinChunks (inputs.map ChunkEvent.data)).length ∧
    (runPoolData parse s inputs).closed = false ∧
    (runPoolData parse s inputs).clientDestroyed = false := by
  intro inputs
  induction inputs with
  | nil =>
    intro s h1 h2
    refine ⟨(List.append_nil _).symm, ?_, h1, h2⟩
    show s.bytesReceived = s.bytesReceived + ([] : List Char).length
    simp
  | cons e es ih =>
    intro s h1 h2
    obtain ⟨g1, g2, g3, g4, _, _, _, _, _⟩ :=
      handlePoolData_step parse e.now e.canWrite s e.data h1 h2
    obtain ⟨k1, k2, k3, k4⟩ :=
      ih (ProxyConnection.handlePoolData parse e.now e.canWrite s e.data) g3 g4
    have hrun : runPoolData parse s (e :: es) =
        runPoolData parse (ProxyConnection.handlePoolData parse e.now e.canWrite s e.data) es := rfl
    refine ⟨?_, ?_, by rw [hrun]; exact k3, by rw [hrun]; exact k4⟩
    · rw [hrun, k1, g1]
      show (s.clientWritten ++ e.data) ++ joinChunks (es.map ChunkEvent.data) =
        s.clientWritten ++ (e.data ++ joinChunks (es.map ChunkEvent.data))
      rw [List.append_assoc]
    · rw [hrun, k2, g2]
      show (s.bytesReceived + e.data.length) + (joinChunks (es.map ChunkEvent.data)).length =
        s.bytesReceived + (e.data ++ joinChunks (es.map ChunkEvent.data)).length
      rw [List.length_append]
      omega

/-- C1: while the connection is open and the opposite transport is not
destroyed, every received chunk sequence is written to the opposite
transport exactly once, in order and unchanged (the written stream is
extended by exactly the concatenation of the received chunks), and the
byte counter grows by exactly the received length; a chunk arriving
after the closed flag is set changes nothing (it is neither forwarded
nor counted). -/
theorem relay_forwards_each_byte_once (parse : List Char → Option JSValue)
    (inputs : List ChunkEvent) (s : ConnState) :
    (s.closed = false → s.poolDestroyed = false →
      (runClientData parse s inputs).poolWritten =
        s.poolWritten ++ joinChunks (inputs.map ChunkEvent.data) ∧
      (runClientData parse s inputs).bytesSent =
        s.bytesSent + (joinChunks (inputs.map ChunkEvent.data)).length) ∧
    (s.closed = false → s.clientDestroyed = false →
      (runPoolData parse s inputs).clientWritten =
        s.clientWritten ++ joinChunks (inputs.map ChunkEvent.data) ∧
      (runPoolData parse s inputs).bytesReceived =
        s.bytesReceived + (joinChunks (inputs.map ChunkEvent.data)).length) ∧
    (s.closed = true → ∀ (now : Int) (cw : Bool) (d : List Char),
      ProxyConnection.handleClientData parse now cw s d = s ∧
      ProxyConnection.handlePoolData parse now cw s d = s) := by
  refine ⟨?_, ?_, ?_⟩
  · intro h1 h2
    obtain ⟨k1, k2, _, _⟩ := runClientData_spec parse inputs s h1 h2
    exact ⟨k1, k2⟩
  · intro h1 h2
    obtain ⟨k1, k2, _, _⟩ := runPoolData_spec parse inputs s h1 h2
    exact ⟨k1, k2⟩
  · intro h now cw d
    exact ⟨handleClientData_closed parse now cw s d h,
      handlePoolData_closed parse now cw s d h⟩

/-- Witness: two chunks on each transport of the sample connection are
forwarded unchanged and in order. -/
theorem relay_forwards_each_byte_once_witness :
    sampleConn.closed = false ∧ sampleConn.poolDestroyed = false ∧
    (runClientData (fun _ => none) sampleConn
        [⟨0, true, ['a']⟩, ⟨1, false, ['b', 'c']⟩]).poolWritten =
      sampleConn.poolWritten ++
        joinChunks ([⟨0, true, ['a']⟩, ⟨1, false, ['b', 'c']⟩].map ChunkEvent.data) :=
  ⟨rfl, rfl,
    ((relay_forwards_each_byte_once (fun _ => none)
      [⟨0, true, ['a']⟩, ⟨1, false, ['b', 'c']⟩] sampleConn).1 rfl rfl).1⟩

/-- C6: in a forwarding step, reception is paused exactly when the
opposite write reports a saturated buffer (for the pool direction the
code also rechecks that the pool socket is alive); a drain signal from
the opposite transport resumes the paused side; a drain signal never
touches its own side's pause flag; and a data event never touches the
opposite pause flag.  This holds symmetrically for both directions. -/
theorem relay_backpressure_pairing (parse : List Char → Option JSValue)
    (now : Int) (cw : Bool) (s : ConnState) (d : List Char) :
    (s.closed = false → s.clientPaused = false → s.poolDestroyed = false →
      (ProxyConnection.handleClientData parse now cw s d).clientPaused = !cw) ∧
    (s.closed = false → s.poolPaused = false → s.clientDestroyed = false →
      s.poolDestroyed = false →
      (ProxyConnection.handlePoolData parse now cw s d).poolPaused = !cw) ∧
    (s.closed = false → s.poolDestroyed = false →
      (ProxyConnection.handleClientData parse now cw s d).poolPaused = s.poolPaused) ∧
    (s.closed = false → s.clientDestroyed = false →
      (ProxyConnection.handlePoolData parse now cw s d).clientPaused = s.clientPaused) ∧
    (s.clientDestroyed = false → (ProxyConnection.handlePoolDrain s).clientPaused = false) ∧
    (s.poolDestroyed = false → (ProxyConnection.handleClientDrain s).poolPaused = false) ∧
    ((ProxyConnection.handlePoolDrain s).poolPaused = s.poolPaused) ∧
    ((ProxyConnection.handleClientDrain s).clientPaused = s.clientPaused) := by
  refine ⟨?_, ?_, ?_, ?_, ?_, ?_, ?_, ?_⟩
  · intro h1 h2 h3
    have := (handleClientData_step parse now cw s d h1 h3).2.2.2.2.2.2.2.2
    rw [this, h2, Bool.false_or]
  · intro h1 h2 h3 h4
    have := (handlePoolData_step parse now cw s d h1 h3).2.2.2.2.2.2.2.2
    rw [this, h2, h4, Bool.false_or, Bool.not_false, Bool.and_true]
  · intro h1 h2
    exact (handleClientData_step parse now cw s d h1 h2).2.2.2.2.2.2.2.1
  · intro h1 h2
    exact (handlePoolData_step parse now cw s d h1 h2).2.2.2.2.2.2.2.1
  · intro h
    unfold ProxyConnection.handlePoolDrain
    rw [h]
    cases hp : s.clientPaused with
    | false => rw [Bool.not_false, Bool.true_and, if_neg (by simp)]; exact hp
    | true => rw [Bool.not_false, Bool.true_and, if_pos rfl]
  · intro h
    unfold ProxyConnection.handleClientDrain
    rw [h]
    cases hp : s.poolPaused with
    | false => rw [Bool.not_false, Bool.true_and, if_neg (by simp)]; exact hp
    | true => rw [Bool.not_false, Bool.true_and, if_pos rfl]
  · unfold ProxyConnection.handlePoolDrain
    split
    · rfl
    · rfl
  · unfold ProxyConnection.handleClientDrain
    split
    · rfl
    · rfl

/-- Witness: a full-buffer write on the sample connection pauses the
client, and a pool drain resumes it. -/
theorem relay_backpressure_pairing_witness :
    sampleConn.closed = false ∧ sampleConn.clientPaused = false ∧
    sampleConn.poolDestroyed = false ∧
    (ProxyConnection.handleClientData (fun _ => none) 0 false sampleConn ['x']).clientPaused =
      !false :=
  ⟨rfl, rfl, rfl,
    (relay_backpressure_pairing (fun _ => none) 0 false sampleConn ['x']).1 rfl rfl rfl⟩

/-! ## Message classification (C8) -/

/-- The direction-independent shape classifier that the specification
describes: method and no id means notification, method means request,
id with result or error means response. (Stated from the specification
for comparison; the code does not implement this.) -/
def specShapeClassify (m : JSValue) : Option ProxyEventType :=
  if jsIn m "method" && !(jsIn m "id") then some ProxyEventType.stratumNotification
  else if jsIn m "method" then some ProxyEventType.stratumRequest
  else if jsIn m "id" && (jsIn m "result" || jsIn m "error") then
    some ProxyEventType.stratumResponse
  else none

/-- A notification-shaped message: a method and no id. -/
def notifyNoId : JSValue :=
  JSValue.obj [("method", JSValue.str "mining.notify"), ("params", JSValue.arr [])]

/-- C8 counterexample: the message with a method and no id is, by the
claimed shape rule, a notification; but observed downstream-to-upstream
the code classifies it as a request — classification depends on the
direction, not on shape alone. -/
theorem message_classification_counterexample :
    specShapeClassify notifyNoId = some ProxyEventType.stratumNotification ∧
    ProxyConnection.clientMessageEventType notifyNoId = ProxyEventType.stratumRequest ∧
    ProxyEventType.stratumRequest ≠ ProxyEventType.stratumNotification := by
  refine ⟨?_, rfl, by decide⟩
  rfl

/-- C8 (amended): classification is direction-dependent. Every message
observed downstream-to-upstream is emitted as a request; a message
observed upstream-to-downstream is emitted as a notification exactly
when its method field is present and truthy, and as a response
otherwise; and the handlers emit exactly one event of that type. -/
theorem message_classification (m : JSValue) (now : Int) (s : ConnState) :
    ProxyConnection.clientMessageEventType m = ProxyEventType.stratumRequest ∧
    (ProxyConnection.poolMessageEventType m = ProxyEventType.stratumNotification ↔
      ProxyConnection.poolHasTruthyMethod m = true) ∧
    (ProxyConnection.poolMessageEventType m = ProxyEventType.stratumResponse ↔
      ProxyConnection.poolHasTruthyMethod m = false) ∧
    (ProxyConnection.handlePoolMessage now s m).events =
      s.events ++ [⟨ProxyConnection.poolMessageEventType m, now, s.connectionId,
        s.labels, EventData.message m⟩] ∧
    (∃ lab, (ProxyConnection.handleClientMessage now s m).events =
      s.events ++ [⟨ProxyEventType.stratumRequest, now, s.connectionId, lab,
        EventData.message m⟩]) := by
  refine ⟨rfl, ?_, ?_, ?_, ?_⟩
  · unfold ProxyConnection.poolMessageEventType
    cases h : ProxyConnection.poolHasTruthyMethod m with
    | false => simp
    | true => simp
  · unfold ProxyConnection.poolMessageEventType
    cases h : ProxyConnection.poolHasTruthyMethod m with
    | false => simp
    | true => simp
  · rw [handlePoolMessage_eq]
  · obtain ⟨lab, wn, he⟩ := handleClientMessage_cases now s m
    exact ⟨lab, by rw [he]⟩

/-! ## ProxyServer admission (server.ts)

`recentConnections` is a JS Map used only through get/set/delete, so it
is modelled as a function from source addresses to optional timestamp
lists. -/

/-- `CONNECTION_THROTTLE_MS` (server.ts line 24). -/
def CONNECTION_THROTTLE_MS : Int := 5000

/-- `MAX_CONNECTIONS_PER_WINDOW` (server.ts line 25). -/
def MAX_CONNECTIONS_PER_WINDOW : Nat := 1

/-- The `recentConnections` map. -/
def RecentMap := String → Option (List Int)

/-- `Map.prototype.get` (absent key reads as undefined). -/
def mapGet (m : RecentMap) (k : String) : Option (List Int) := m k

/-- `Map.prototype.set`. -/
def mapSet (m : RecentMap) (k : String) (v : List Int) : RecentMap :=
  fun x => if x = k then some v else m x

/-- `Map.prototype.delete`. -/
def mapDelete (m : RecentMap) (k : String) : RecentMap :=
  fun x => if x = k then none else m x

/-- Mutable state of one `ProxyServer`. -/
structure ServerState where
  connections : List String
  clientCounter : Nat
  recentConnections : RecentMap
  maxConnections : Option Nat

/-- The admission decision taken by `handleConnection`: both rejections
destroy the socket immediately and never construct a `ProxyConnection`. -/
inductive AdmissionDecision where
  | rejectedThrottled
  | rejectedCapacity
  | admitted (clientId : String)
deriving Repr, DecidableEq

namespace ProxyServer

/-- `ProxyServer.isThrottled` (server.ts lines 116-133): prune the
timestamps of this source address to the trailing window, write the
pruned list back (deleting an emptied entry), and report whether the
surviving count reaches the per-window maximum.  The pruning mutates
the map, so the successor state is returned alongside the verdict. -/
def isThrottled (st : ServerState) (ip : String) (now : Int) : Bool × ServerState :=
  let timestamps := (mapGet st.recentConnections ip).getD []
  let valid := timestamps.filter (fun ts => decide (now - ts < CONNECTION_THROTTLE_MS))
  let recent2 :=
    if valid.length > 0 then mapSet st.recentConnections ip valid
    else mapDelete st.recentConnections ip
  (decide (valid.length ≥ MAX_CONNECTIONS_PER_WINDOW),
    { st with recentConnections := recent2 })

/-- `ProxyServer.trackConnection` (server.ts lines 135-140): push the
attempt timestamp for this source address. -/
def trackConnection (st : ServerState) (ip : String) (now : Int) : ServerState :=
  let timestamps := (mapGet st.recentConnections ip).getD []
  { st with recentConnections := mapSet st.recentConnections ip (timestamps ++ [now]) }

/-- `this.options.maxConnections && this.connections.size >= this.options.maxConnections`
(server.ts lines 79-82); a configured value of 0 is falsy in JS, so it
disables the check. -/
def atCapacity (maxConnections : Option Nat) (size : Nat) : Bool :=
  match maxConnections with
  | some m => m != 0 && decide (size ≥ m)
  | none => false

/-- `ProxyServer.handleConnection` (server.ts lines 66-114): bump the
client counter, reject (destroying the socket) when throttled, then
when at capacity; otherwise record the attempt timestamp, construct the
relay and register it. -/
def handleConnection (st : ServerState) (ip : String) (now : Int) :
    ServerState × AdmissionDecision :=
  let counter2 := st.clientCounter + 1
  let clientId := "miner-" ++ toString counter2
  let st1 := { st with clientCounter := counter2 }
  let tr := isThrottled st1 ip now
  if tr.1 then (tr.2, AdmissionDecision.rejectedThrottled)
  else if atCapacity tr.2.maxConnections tr.2.connections.length then
    (tr.2, AdmissionDecision.rejectedCapacity)
  else
    let st3 := trackConnection tr.2 ip now
    ({ st3 with connections := st3.connections ++ [clientId] },
      AdmissionDecision.admitted clientId)

end ProxyServer

/-- A sequence of connection attempts from one source address. -/
def runAdmissions (st : ServerState) (ip : String) :
    List Int → ServerState × List AdmissionDecision
  | [] => (st, [])
  | t :: ts =>
    let r := ProxyServer.handleConnection st ip t
    let rest := runAdmissions r.1 ip ts
    (rest.1, r.2 :: rest.2)

theorem mapGet_set_self (m : RecentMap) (k : String) (v : List Int) :
    mapGet (mapSet m k v) k = some v := by
  unfold mapGet mapSet
  simp

theorem mapGet_delete_self (m : RecentMap) (k : String) :
    mapGet (mapDelete m k) k = none := by
  unfold mapGet mapDelete
  simp

theorem handleConnection_admits (S : ServerState) (ip : String) (t : Int)
    (h0 : mapGet S.recentConnections ip = none)
    (hcap : ProxyServer.atCapacity S.maxConnections S.connections.length = false) :
    (ProxyServer.handleConnection S ip t).2 =
      AdmissionDecision.admitted ("miner-" ++ toString (S.clientCounter + 1)) ∧
    (ProxyServer.handleConnection S ip t).1.connections =
      S.connections ++ ["miner-" ++ toString (S.clientCounter + 1)] ∧
    mapGet (ProxyServer.handleConnection S ip t).1.recentConnections ip = some [t] ∧
    (ProxyServer.handleConnection S ip t).1.maxConnections = S.maxConnections := by
  have h1 : ProxyServer.isThrottled { S with clientCounter := S.clientCounter + 1 } ip t =
      (false, { S with clientCounter := S.clientCounter + 1,
                       recentConnections := mapDelete S.recentConnections ip }) := by
    unfold ProxyServer.isThrottled
    dsimp only
    rw [h0]
    rfl
  have h2 : ProxyServer.handleConnection S ip t =
      ({ S with clientCounter := S.clientCounter + 1,
                recentConnections := mapSet (mapDelete S.recentConnections ip) ip [t],
                connections := S.connections ++ ["miner-" ++ toString (S.clientCounter + 1)] },
       AdmissionDecision.admitted ("miner-" ++ toString (S.clientCounter + 1))) := by
    unfold ProxyServer.handleConnection ProxyServer.trackConnection
    dsimp only
    rw [h1]
    dsimp only
    rw [if_neg (by decide)]
    rw [hcap]
    rw [if_neg (by decide)]
    rw [mapGet_delete_self]
    rfl
  rw [h2]
  exact ⟨rfl, rfl, mapGet_set_self _ _ _, rfl⟩

theorem handleConnection_throttled (S : ServerState) (ip : String) (t t0 : Int)
    (h : mapGet S.recentConnections ip = some [t0])
    (hw : t - t0 < CONNECTION_THROTTLE_MS) :
    (ProxyServer.handleConnection S ip t).2 = AdmissionDecision.rejectedThrottled ∧
    (ProxyServer.handleConnection S ip t).1.connections = S.connections ∧
    mapGet (ProxyServer.handleConnection S ip t).1.recentConnections ip = some [t0] ∧
    (ProxyServer.handleConnection S ip t).1.maxConnections = S.maxConnections := by
  have h1 : ProxyServer.isThrottled { S with clientCounter := S.clientCounter + 1 } ip t =
      (true, { S with clientCounter := S.clientCounter + 1,
                      recentConnections := mapSet S.recentConnections ip [t0] }) := by
    unfold ProxyServer.isThrottled
    dsimp only
    rw [h]
    have hf : ([t0].filter (fun ts => decide (t - ts < CONNECTION_THROTTLE_MS))) = [t0] := by
      simp [hw]
    have hg : ((some [t0]).getD ([] : List Int)) = [t0] := rfl
    rw [hg, hf]
    rfl
  have h2 : ProxyServer.handleConnection S ip t =
      ({ S with clientCounter := S.clientCounter + 1,
                recentConnections := mapSet S.recentConnections ip [t0] },
       AdmissionDecision.rejectedThrottled) := by
    unfold ProxyServer.handleConnection
    dsimp only
    rw [h1]
    dsimp only
    rw [if_pos rfl]
  rw [h2]
  exact ⟨rfl, rfl, mapGet_set_self _ _ _, rfl⟩

theorem handleConnection_capacity (S : ServerState) (ip : String) (t : Int)
    (h0 : mapGet S.recentConnections ip = none)
    (hcap : ProxyServer.atCapacity S.maxConnections S.connections.length = true) :
    (ProxyServer.handleConnection S ip t).2 = AdmissionDecision.rejectedCapacity ∧
    (ProxyServer.handleConnection S ip t).1.connections = S.connections ∧
    mapGet (ProxyServer.handleConnection S ip t).1.recentConnections ip = none := by
  have h1 : ProxyServer.isThrottled { S with clientCounter := S.clientCounter + 1 } ip t =
      (false, { S with clientCounter := S.clientCounter + 1,
                       recentConnections := mapDelete S.recentConnections ip }) := by
    unfold ProxyServer.isThrottled
    dsimp only
    rw [h0]
    rfl
  have h2 : ProxyServer.handleConnection S ip t =
      ({ S with clientCounter := S.clientCounter + 1,
                recentConnections := mapDelete S.recentConnections ip },
       AdmissionDecision.rejectedCapacity) := by
    unfold ProxyServer.handleConnection
    dsimp only
    rw [h1]
    dsimp only
    rw [if_neg (by decide)]
    rw [hcap]
    rw [if_pos rfl]
  rw [h2]
  exact ⟨rfl, rfl, mapGet_delete_self _ _⟩

theorem runAdmissions_throttled (ip : String) (t0 : Int) :
    ∀ (ts : List Int) (S : ServerState),
    mapGet S.recentConnections ip = some [t0] →
    (∀ t ∈ ts, t - t0 < CONNECTION_THROTTLE_MS) →
    (runAdmissions S ip ts).2 = ts.map (fun _ => AdmissionDecision.rejectedThrottled) ∧
    (runAdmissions S ip ts).1.connections = S.connections ∧
    mapGet (runAdmissions S ip ts).1.recentConnections ip = some [t0] := by
  intro ts
  induction ts with
  | nil => intro S h _; exact ⟨rfl, rfl, h⟩
  | cons t ts2 ih =>
    intro S h hw
    obtain ⟨g1, g2, g3, _⟩ := handleConnection_throttled S ip t t0 h
      (hw t (List.mem_cons_self _ _))
    obtain ⟨k1, k2, k3⟩ := ih (ProxyServer.handleConnection S ip t).1 g3
      (fun x hx => hw x (List.mem_cons_of_mem _ hx))
    have hrun : runAdmissions S ip (t :: ts2) =
        ((runAdmissions (ProxyServer.handleConnection S ip t).1 ip ts2).1,
          (ProxyServer.handleConnection S ip t).2 ::
            (runAdmissions (ProxyServer.handleConnection S ip t).1 ip ts2).2) := rfl
    rw [hrun]
    exact ⟨by rw [List.map_cons, k1, g1], k2.trans g2, k3⟩

/-- C5: for a burst of attempts from one fresh source address faster
than the 5-second window, with capacity available, exactly the first
attempt is admitted (constructing a relay and recording its timestamp),
and every later attempt in the window is rejected as throttled without
constructing a relay and without recording its timestamp; independently,
an attempt from a fresh address while the connection count is at the
configured ceiling is rejected without constructing a relay and without
recording its timestamp. -/
theorem admission_throttle_spec (st : ServerState) (ip : String) (t0 : Int)
    (ts : List Int) (h0 : mapGet st.recentConnections ip = none)
    (hcap : ProxyServer.atCapacity st.maxConnections st.connections.length = false)
    (hwin : ∀ t ∈ ts, t - t0 < CONNECTION_THROTTLE_MS) :
    ((runAdmissions st ip (t0 :: ts)).2 =
      AdmissionDecision.admitted ("miner-" ++ toString (st.clientCounter + 1)) ::
        ts.map (fun _ => AdmissionDecision.rejectedThrottled) ∧
    (runAdmissions st ip (t0 :: ts)).1.connections =
      st.connections ++ ["miner-" ++ toString (st.clientCounter + 1)] ∧
    mapGet (runAdmissions st ip (t0 :: ts)).1.recentConnections ip = some [t0]) ∧
    (∀ (st2 : ServerState) (now : Int), mapGet st2.recentConnections ip = none →
      ProxyServer.atCapacity st2.maxConnections st2.connections.length = true →
      (ProxyServer.handleConnection st2 ip now).2 = AdmissionDecision.rejectedCapacity ∧
      (ProxyServer.handleConnection st2 ip now).1.connections = st2.connections ∧
      mapGet (ProxyServer.handleConnection st2 ip now).1.recentConnections ip = none) := by
  refine ⟨?_, fun st2 now ha hb => handleConnection_capacity st2 ip now ha hb⟩
  obtain ⟨g1, g2, g3, _⟩ := handleConnection_admits st ip t0 h0 hcap
  obtain ⟨k1, k2, k3⟩ := runAdmissions_throttled ip t0 ts
    (ProxyServer.handleConnection st ip t0).1 g3 hwin
  have hrun : runAdmissions st ip (t0 :: ts) =
      ((runAdmissions (ProxyServer.handleConnection st ip t0).1 ip ts).1,
        (ProxyServer.handleConnection st ip t0).2 ::
          (runAdmissions (ProxyServer.handleConnection st ip t0).1 ip ts).2) := rfl
  rw [hrun]
  refine ⟨?_, k2.trans g2, k3⟩
  show (ProxyServer.handleConnection st ip t0).2 ::
      (runAdmissions (ProxyServer.handleConnection st ip t0).1 ip ts).2 = _
  rw [g1, k1]

/-- A fresh server with a capacity of 10, used by the witness. -/
def sampleServer : ServerState :=
  { connections := []
    clientCounter := 0
    recentConnections := fun _ => none
    maxConnections := some 10 }

/-- Witness: three attempts at 0, 1000 and 2000 milliseconds from one
address — the first is admitted, the next two are throttled. -/
theorem admission_throttle_spec_witness :
    mapGet sampleServer.recentConnections "1.2.3.4" = none ∧
    (runAdmissions sampleServer "1.2.3.4" [0, 1000, 2000]).2 =
      AdmissionDecision.admitted ("miner-" ++ toString (0 + 1)) ::
        [(1000 : Int), 2000].map (fun _ => AdmissionDecision.rejectedThrottled) :=
  ⟨rfl,
    (admission_throttle_spec sampleServer "1.2.3.4" 0 [1000, 2000] rfl (by decide)
      (by intro t ht; fin_cases ht <;> decide)).1.1⟩

/-! ## MetricsCollector (the collector source file)

Only the pieces the claims exercise are modelled: the pending-request
map and the submit/accepted/rejected counters with the latency
histogram (other histograms and gauges are plain counters updated by
other handlers). The pending map is a JS Map used only through
get/set/delete, modelled as a function from key strings. -/

/-- The labels the collector derives from an event. -/
structure MetricLabels where
  client_id : String
  pool_host : String
deriving Repr, DecidableEq

/-- Mutable state of one `MetricsCollector` (the fields the stratum
request/response handlers touch). -/
structure CollectorState where
  pending : String → Option (Int × MetricLabels)
  latencyObs : List (MetricLabels × Rat)
  submitsTotal : Nat
  acceptedShares : Nat
  rejectedShares : Nat

/-- The label pair the collector builds from an event. -/
def eventLabels (e : ProxyEvent) : MetricLabels :=
  ⟨e.labels.client_id, e.labels.pool_host⟩

/-- The `message` field of the event payload (`none` models the guard
`!event.data || !('message' in event.data)`). -/
def eventMessage (e : ProxyEvent) : Option JSValue :=
  match e.data with
  | EventData.message m => some m
  | _ => none

/-- `msg.id !== null` (an absent key reads as undefined, which is not
null). -/
def idNotNull (msg : JSValue) : Bool :=
  match jsGet msg "id" with
  | some JSValue.null => false
  | _ => true

/-- The pending-request key `connection_id-id` built with a template
literal. -/
def pendingKey (connId : String) (msg : JSValue) : String :=
  connId ++ "-" ++ jsOptToString (jsGet msg "id")

namespace MetricsCollector

/-- `MetricsCollector.handleStratumRequest` (lines 79-95): count a
`mining.submit` and, when its id is not null, record the pending entry
for latency correlation. -/
def handleStratumRequest (c : CollectorState) (e : ProxyEvent) : CollectorState :=
  match eventMessage e with
  | none => c
  | some msg =>
    if ProxyConnection.isMethod msg "mining.submit" then
      let c1 := { c with submitsTotal := c.submitsTotal + 1 }
      if idNotNull msg then
        let key := pendingKey e.connection_id msg
        { c1 with pending := fun x =>
            if x = key then some (e.timestamp, eventLabels e) else c1.pending x }
      else c1
    else c

/-- `MetricsCollector.handleStratumResponse` (lines 97-124): for a
response with a present non-null id, observe the latency of a matching
pending entry and delete it; then classify for the acceptance counters
(result strictly true or strictly null increments accepted, a present
non-null error increments rejected) regardless of any pending match. -/
def handleStratumResponse (c : CollectorState) (e : ProxyEvent) : CollectorState :=
  match eventMessage e with
  | none => c
  | some msg =>
    if jsIn msg "id" && idNotNull msg then
      let key := pendingKey e.connection_id msg
      let c1 :=
        match c.pending key with
        | some p =>
          { c with
            latencyObs := c.latencyObs ++
              [(eventLabels e, ((e.timestamp - p.1 : Int) : Rat) / 1000)],
            pending := fun x => if x = key then none else c.pending x }
        | none => c
      let c2 :=
        if jsIn msg "result" then
          match jsGet msg "result" with
          | some (JSValue.bool true) => { c1 with acceptedShares := c1.acceptedShares + 1 }
          | some JSValue.null => { c1 with acceptedShares := c1.acceptedShares + 1 }
          | _ => c1
        else c1
      if jsIn msg "error" && (match jsGet msg "error" with
          | some JSValue.null => false
          | _ => true) then
        { c2 with rejectedShares := c2.rejectedShares + 1 }
      else c2
    else c

end MetricsCollector

theorem handleStratumRequest_submit (c : CollectorState) (e : ProxyEvent)
    (msg : JSValue) (hm : eventMessage e = some msg)
    (hsub : ProxyConnection.isMethod msg "mining.submit" = true)
    (hid : idNotNull msg = true) :
    MetricsCollector.handleStratumRequest c e =
      { c with submitsTotal := c.submitsTotal + 1,
               pending := fun x =>
                 if x = pendingKey e.connection_id msg
                 then some (e.timestamp, eventLabels e)
                 else c.pending x } := by
  unfold MetricsCollector.handleStratumRequest
  rw [hm]
  simp only [hsub, hid, eq_self_iff_true, if_true]

theorem handleStratumResponse_hit (c : CollectorState) (e : ProxyEvent)
    (msg : JSValue) (p : Int × MetricLabels)
    (hm : eventMessage e = some msg)
    (hidp : (jsIn msg "id" && idNotNull msg) = true)
    (hp : c.pending (pendingKey e.connection_id msg) = some p) :
    (MetricsCollector.handleStratumResponse c e).latencyObs =
      c.latencyObs ++ [(eventLabels e, ((e.timestamp - p.1 : Int) : Rat) / 1000)] ∧
    (MetricsCollector.handleStratumResponse c e).pending
      (pendingKey e.connection_id msg) = none := by
  unfold MetricsCollector.handleStratumResponse
  rw [hm]
  simp only [hidp, eq_self_iff_true, if_true]
  rw [hp]
  dsimp only
  constructor
  · repeat' split
    all_goals rfl
  · repeat' split
    all_goals simp

theorem handleStratumResponse_miss (c : CollectorState) (e : ProxyEvent)
    (msg : JSValue) (hm : eventMessage e = some msg)
    (hp : c.pending (pendingKey e.connection_id msg) = none) :
    (MetricsCollector.handleStratumResponse c e).latencyObs = c.latencyObs := by
  unfold MetricsCollector.handleStratumResponse
  rw [hm]
  by_cases hidp : (jsIn msg "id" && idNotNull msg) = true
  · simp only [hidp, eq_self_iff_true, if_true]
    rw [hp]
    dsimp only
    repeat' split
    all_goals rfl
  · simp only [if_neg hidp]

/-- C4 (amended): a decoded response whose id is present and non-null
is classified for the acceptance counters regardless of any pending
match: accepted is incremented exactly when the result key holds
strictly true or strictly null (other truthy results do not count), and
rejected is incremented exactly when the error key holds a non-null
value. -/
theorem acceptance_classification (c : CollectorState) (e : ProxyEvent)
    (msg : JSValue) (hm : eventMessage e = some msg)
    (hidp : (jsIn msg "id" && idNotNull msg) = true) :
    (MetricsCollector.handleStratumResponse c e).acceptedShares =
      c.acceptedShares + (if (jsIn msg "result" && (match jsGet msg "result" with
        | some (JSValue.bool true) => true
        | some JSValue.null => true
        | _ => false)) = true then 1 else 0) ∧
    (MetricsCollector.handleStratumResponse c e).rejectedShares =
      c.rejectedShares + (if (jsIn msg "error" && (match jsGet msg "error" with
        | some JSValue.null => false
        | _ => true)) = true then 1 else 0) := by
  unfold MetricsCollector.handleStratumResponse
  rw [hm]
  simp only [hidp, eq_self_iff_true, if_true]
  constructor
  · repeat' split
    all_goals simp_all
  · repeat' split
    all_goals simp_all

/-- C3: a mining.submit request with a non-null identifier followed by
a response carrying the same identifier on the same connection yields
exactly one latency observation equal to the elapsed time between the
two events (in seconds), and removes the pending entry; a response
whose key has no pending entry yields no observation. -/
theorem latency_correlation (c : CollectorState) (e1 e2 : ProxyEvent)
    (msg1 msg2 : JSValue)
    (hm1 : eventMessage e1 = some msg1)
    (hsub : ProxyConnection.isMethod msg1 "mining.submit" = true)
    (hid1 : idNotNull msg1 = true)
    (hm2 : eventMessage e2 = some msg2)
    (hconn : e2.connection_id = e1.connection_id)
    (hid2p : jsIn msg2 "id" = true)
    (hid2 : jsGet msg2 "id" = jsGet msg1 "id") :
    (MetricsCollector.handleStratumRequest c e1).latencyObs = c.latencyObs ∧
    (MetricsCollector.handleStratumResponse
        (MetricsCollector.handleStratumRequest c e1) e2).latencyObs =
      c.latencyObs ++
        [(eventLabels e2, ((e2.timestamp - e1.timestamp : Int) : Rat) / 1000)] ∧
    (MetricsCollector.handleStratumResponse
        (MetricsCollector.handleStratumRequest c e1) e2).pending
      (pendingKey e1.connection_id msg1) = none ∧
    (∀ (c3 : CollectorState) (e3 : ProxyEvent) (msg3 : JSValue),
      eventMessage e3 = some msg3 →
      c3.pending (pendingKey e3.connection_id msg3) = none →
      (MetricsCollector.handleStratumResponse c3 e3).latencyObs = c3.latencyObs) := by
  have hkey : pendingKey e2.connection_id msg2 = pendingKey e1.connection_id msg1 := by
    unfold pendingKey
    rw [hconn, hid2]
  have hid2n : idNotNull msg2 = true := by
    unfold idNotNull
    rw [hid2]
    exact hid1
  have hidp2 : (jsIn msg2 "id" && idNotNull msg2) = true := by
    rw [hid2p, hid2n]
    rfl
  have hc1 := handleStratumRequest_submit c e1 msg1 hm1 hsub hid1
  have hpend : (MetricsCollector.handleStratumRequest c e1).pending
      (pendingKey e2.connection_id msg2) = some (e1.timestamp, eventLabels e1) := by
    rw [hc1]
    dsimp only
    rw [hkey]
    simp
  obtain ⟨hlat, hdel⟩ := handleStratumResponse_hit
    (MetricsCollector.handleStratumRequest c e1) e2 msg2
    (e1.timestamp, eventLabels e1) hm2 hidp2 hpend
  refine ⟨by rw [hc1], ?_, ?_, ?_⟩
  · rw [hlat, hc1]
  · rw [← hkey]
    exact hdel
  · intro c3 e3 msg3 h1 h2
    exact handleStratumResponse_miss c3 e3 msg3 h1 h2

/-- The empty collector. -/
def emptyCollector : CollectorState := ⟨fun _ => none, [], 0, 0, 0⟩

/-- A mining.submit request message with identifier 42. -/
def subMsg : JSValue :=
  JSValue.obj [("id", JSValue.num 42), ("method", JSValue.str "mining.submit"),
    ("params", JSValue.arr [])]

/-- A response message with identifier 42, result true and error null. -/
def respMsg : JSValue :=
  JSValue.obj [("id", JSValue.num 42), ("result", JSValue.bool true),
    ("error", JSValue.null)]

/-- The submit event at 1000 ms on connection conn-A. -/
def subEvent : ProxyEvent :=
  ⟨ProxyEventType.stratumRequest, 1000, "conn-A", ⟨"w", "ip", "pool", 1⟩,
    EventData.message subMsg⟩

/-- The response event at 1050 ms on connection conn-A. -/
def respEvent : ProxyEvent :=
  ⟨ProxyEventType.stratumResponse, 1050, "conn-A", ⟨"w", "ip", "pool", 1⟩,
    EventData.message respMsg⟩

/-- Witness: submit id 42 at 1000 ms, response id 42 at 1050 ms — one
latency observation of 50 ms. -/
theorem latency_correlation_witness :
    eventMessage subEvent = some subMsg ∧
    ProxyConnection.isMethod subMsg "mining.submit" = true ∧
    (MetricsCollector.handleStratumResponse
        (MetricsCollector.handleStratumRequest emptyCollector subEvent)
        respEvent).latencyObs =
      emptyCollector.latencyObs ++
        [(eventLabels respEvent,
          ((respEvent.timestamp - subEvent.timestamp : Int) : Rat) / 1000)] :=
  ⟨rfl, by decide,
    (latency_correlation emptyCollector subEvent respEvent subMsg respMsg rfl
      (by decide) (by decide) rfl rfl (by decide) rfl).2.1⟩

/-- A response with identifier 8 and the truthy (but not strictly true)
result 5. -/
def respMsgTruthy : JSValue :=
  JSValue.obj [("id", JSValue.num 8), ("result", JSValue.num 5)]

/-- The truthy-result response event on connection conn-B. -/
def respEventTruthy : ProxyEvent :=
  ⟨ProxyEventType.stratumResponse, 2000, "conn-B", ⟨"w", "ip", "pool", 1⟩,
    EventData.message respMsgTruthy⟩

/-- C4 counterexample: a response with id 42 and result true on an
empty collector — no pending entry matches, yet the accepted-shares
counter is incremented; and a response whose result is the truthy
number 5 increments nothing, although the claim says truthy results are
accepted.  So classification neither requires a pending match nor uses
truthiness. -/
theorem acceptance_requires_pending_counterexample :
    emptyCollector.pending (pendingKey respEvent.connection_id respMsg) = none ∧
    (MetricsCollector.handleStratumResponse emptyCollector respEvent).acceptedShares =
      emptyCollector.acceptedShares + 1 ∧
    jsTruthy (JSValue.num 5) = true ∧
    (MetricsCollector.handleStratumResponse emptyCollector respEventTruthy).acceptedShares =
      emptyCollector.acceptedShares := ⟨rfl, rfl, rfl, rfl⟩

/-- Witness: the strictly-true response increments accepted by one and
rejected by zero. -/
theorem acceptance_classification_witness :
    eventMessage respEvent = some respMsg ∧
    (jsIn respMsg "id" && idNotNull respMsg) = true ∧
    (MetricsCollector.handleStratumResponse emptyCollector respEvent).acceptedShares =
      emptyCollector.acceptedShares + (if (jsIn respMsg "result" &&
        (match jsGet respMsg "result" with
        | some (JSValue.bool true) => true
        | some JSValue.null => true
        | _ => false)) = true then 1 else 0) :=
  ⟨rfl, by decide,
    (acceptance_classification emptyCollector respEvent respMsg rfl (by decide)).1⟩
